import Mathlib

/-!
Verification development for the PGN import/export core of a chess-opening
study tool.  The definitions below are a shallow embedding of the
TypeScript sources:

  * src/utils/pgnUtils.ts       (tokenizer, AST builder, move-tree builder,
                                 PGN import, PGN export)
  * types/moveTree.ts           (MoveNode, createMoveNode)
  * the board component's makeMove handler (interactive move insertion)

The external rules engine (chess.js) is deliberately out of scope of the
repository core; it is modelled abstractly as a function from a position
(FEN string) and a SAN string to an optional (move, new position) pair,
exactly the capability the core consumes.  Machine strings are modelled as
Lean strings / character lists; JavaScript-specific primitives (trim,
split, parseInt, the whitespace class) are embedded explicitly.

Scanning functions that consume an input prefix of dynamic length are
written with an explicit fuel argument (structural recursion on the fuel)
so that they compute by kernel reduction; every step consumes at least one
character, so a fuel of (length + 1) supplied by the wrapper is always
sufficient.
-/

namespace Chess

/-- Left brace character, written via its code point. -/
def lbrace : Char := Char.ofNat 123

/-- Right brace character, written via its code point. -/
def rbrace : Char := Char.ofNat 125

/-- The JavaScript whitespace class: the characters matched by the regex
class backslash-s and trimmed by String.prototype.trim. -/
def jsWhitespace (c : Char) : Bool :=
  c = ' ' || c = '\t' || c = '\n' || c = '\r' ||
  c.val = 0x0B || c.val = 0x0C || c.val = 0xA0 || c.val = 0x1680 ||
  (0x2000 ≤ c.val && c.val ≤ 0x200A) ||
  c.val = 0x2028 || c.val = 0x2029 || c.val = 0x202F ||
  c.val = 0x205F || c.val = 0x3000 || c.val = 0xFEFF

/-- JavaScript String.prototype.trim on a character list. -/
def jsTrimList (cs : List Char) : List Char :=
  ((cs.dropWhile jsWhitespace).reverse.dropWhile jsWhitespace).reverse

/-- JavaScript String.prototype.trim. -/
def jsTrim (s : String) : String :=
  (jsTrimList s.data).asString

/-- Decimal digit test (the regex class backslash-d). -/
def isDigitChar (c : Char) : Bool :=
  '0' ≤ c && c ≤ '9'

/-- Word character test (the regex class backslash-w): ASCII letters,
digits and underscore. -/
def isWordChar (c : Char) : Bool :=
  ('a' ≤ c && c ≤ 'z') || ('A' ≤ c && c ≤ 'Z') || isDigitChar c || c = '_'

/-- Case-insensitive character equality, as used by a regex with the i
flag (ASCII case folding suffices for the patterns in the source). -/
def ciEq (a b : Char) : Bool :=
  a.toLower = b.toLower

/-- Case-insensitive test that pat occurs at the start of cs. -/
def ciStartsWith : List Char → List Char → Bool
  | [], _ => true
  | _ :: _, [] => false
  | p :: ps, c :: cs => ciEq p c && ciStartsWith ps cs

/-- JavaScript String.prototype.split with a single-space separator:
every occurrence of the space character separates fields, so consecutive
spaces produce empty fields and the empty string splits to one empty
field. -/
def splitSpaceAux : List Char → List Char → List String
  | [], acc => [acc.reverse.asString]
  | c :: cs, acc =>
    if c = ' ' then acc.reverse.asString :: splitSpaceAux cs []
    else splitSpaceAux cs (c :: acc)

/-- JavaScript split on a single space. -/
def jsSplitSpace (s : String) : List String :=
  splitSpaceAux s.data []

/-- Parse an unsigned run of decimal digits to a natural number. -/
def digitsToNat (cs : List Char) : Nat :=
  cs.foldl (fun acc c => acc * 10 + (c.toNat - '0'.toNat)) 0

/-- Hexadecimal digit test. -/
def isHexDigit (c : Char) : Bool :=
  isDigitChar c || ('a' ≤ c && c ≤ 'f') || ('A' ≤ c && c ≤ 'F')

/-- Value of a hexadecimal digit. -/
def hexVal (c : Char) : Nat :=
  if isDigitChar c then c.toNat - '0'.toNat
  else if 'a' ≤ c && c ≤ 'f' then c.toNat - 'a'.toNat + 10
  else c.toNat - 'A'.toNat + 10

/-- Parse an unsigned run of hexadecimal digits. -/
def hexToNat (cs : List Char) : Nat :=
  cs.foldl (fun acc c => acc * 16 + hexVal c) 0

/-- JavaScript parseInt with no radix argument: skip leading whitespace,
read an optional sign, accept a 0x or 0X prefix for hexadecimal, then read
the longest run of digits; none models NaN (no digits at all). -/
def jsParseInt (s : String) : Option Int :=
  let cs := s.data.dropWhile jsWhitespace
  let (sign, cs) : Int × List Char :=
    match cs with
    | '-' :: rest => (-1, rest)
    | '+' :: rest => (1, rest)
    | _ => (1, cs)
  match cs with
  | '0' :: x :: rest =>
    if x = 'x' || x = 'X' then
      let ds := rest.takeWhile isHexDigit
      if ds = [] then none else some (sign * (hexToNat ds : Int))
    else
      let ds := (('0' :: x :: rest).takeWhile isDigitChar)
      if ds = [] then none else some (sign * (digitsToNat ds : Int))
  | _ =>
    let ds := cs.takeWhile isDigitChar
    if ds = [] then none else some (sign * (digitsToNat ds : Int))

/-- Global (leftmost, non-overlapping) replacement of a fixed nonempty
character pattern, as done by String.prototype.replace with a global
regex of a literal pattern.  The fuel argument makes the recursion
structural; each step consumes at least one character. -/
def replaceAllAux (pat rep : List Char) : Nat → List Char → List Char
  | 0, s => s
  | _ + 1, [] => []
  | fuel + 1, c :: cs =>
    if pat ≠ [] && pat.isPrefixOf (c :: cs) then
      rep ++ replaceAllAux pat rep fuel ((c :: cs).drop pat.length)
    else
      c :: replaceAllAux pat rep fuel cs

/-- Global replacement of a fixed pattern in a character list. -/
def replaceAllChars (pat rep s : List Char) : List Char :=
  replaceAllAux pat rep (s.length + 1) s

-- ===========================================================================
-- Data model (pgnUtils.ts TYPES section and types/moveTree.ts)
-- ===========================================================================

/-- Token types of the PGN lexer (pgnUtils.ts, TokenType). -/
inductive TokenType where
  | MOVE
  | MOVE_NUMBER
  | COMMENT
  | NAG
  | VARIATION_START
  | VARIATION_END
  | RESULT
deriving DecidableEq, Repr

/-- A lexer token (pgnUtils.ts, interface Token). -/
structure Token where
  type : TokenType
  value : String
deriving DecidableEq, Repr

/-- Tag of an AST node (pgnUtils.ts, interface AstNode, field type). -/
inductive AstType where
  | MOVE
  | VARIATION
deriving DecidableEq, Repr

/-- AST node of the PGN parser (pgnUtils.ts, interface AstNode).  A MOVE
node carries a SAN string, annotation glyphs, an optional comment and a
list of attached variations in its children; a VARIATION node carries its
body sequence in its children.  Absent optional fields of the TypeScript
interface are modelled as none and the empty list. -/
inductive AstNode where
  | mk (type : AstType) (san : Option String) (nags : List String)
       (comment : Option String) (children : List AstNode)
deriving Repr

/-- Tag of an AST node. -/
def AstNode.type : AstNode → AstType
  | .mk t _ _ _ _ => t

/-- SAN field of an AST node. -/
def AstNode.san : AstNode → Option String
  | .mk _ s _ _ _ => s

/-- Annotation glyphs of an AST node. -/
def AstNode.nags : AstNode → List String
  | .mk _ _ n _ _ => n

/-- Comment of an AST node. -/
def AstNode.comment : AstNode → Option String
  | .mk _ _ _ c _ => c

/-- Children of an AST node (attached variations of a MOVE node, or the
body of a VARIATION node). -/
def AstNode.children : AstNode → List AstNode
  | .mk _ _ _ _ ch => ch

/-- The fields of a chess.js Move object that the core reads: the
canonical SAN and the from/to squares (used for duplicate detection by the
interactive move insertion).  The rules engine produces these values; the
core never invents them. -/
structure MoveData where
  san : String
  fromSq : String
  toSq : String
deriving DecidableEq, Repr

/-- Persisted move-tree node (types/moveTree.ts, interface MoveNode),
plus the comment property that pgnUtils.ts assigns on the node at
runtime.  The random id is omitted (it carries no information the claims
mention) and the parent back-reference is represented by the tree
structure itself: children are owned by their parent, and every function
that needs the parent position receives it from its caller. -/
inductive MoveNode where
  | mk (move : MoveData) (fen : String) (isMainLine : Bool)
       (comment : Option String) (children : List MoveNode)
deriving Repr

/-- Move of a tree node. -/
def MoveNode.move : MoveNode → MoveData
  | .mk mv _ _ _ _ => mv

/-- Position after the move of a tree node. -/
def MoveNode.fen : MoveNode → String
  | .mk _ f _ _ _ => f

/-- Main-line flag of a tree node. -/
def MoveNode.isMainLine : MoveNode → Bool
  | .mk _ _ ml _ _ => ml

/-- Comment of a tree node. -/
def MoveNode.comment : MoveNode → Option String
  | .mk _ _ _ cm _ => cm

/-- Children of a tree node. -/
def MoveNode.children : MoveNode → List MoveNode
  | .mk _ _ _ _ ch => ch

instance : Inhabited MoveNode :=
  ⟨MoveNode.mk ⟨"", "", ""⟩ "" false none []⟩

/-- The abstract rules engine (chess.js as consumed by the core): apply a
SAN string to a FEN position, returning the move object and resulting FEN
on success and none on failure (an illegal move, or a position the engine
rejects). -/
abbrev Engine := String → String → Option (MoveData × String)

/-- PGN metadata: an insertion-ordered tag map (key/value pairs), the
image of a JavaScript object with string keys. -/
abbrev PGNMetadata := List (String × String)

/-- Assignment tags[key] = value on a JavaScript object: overwrite in
place when the key exists, append otherwise. -/
def setTag (m : PGNMetadata) (k v : String) : PGNMetadata :=
  if m.any (fun p => p.1 = k) then
    m.map (fun p => if p.1 = k then (k, v) else p)
  else
    m ++ [(k, v)]

/-- Lookup of a tag value with a default for a missing key. -/
def lookupTagD (m : PGNMetadata) (k d : String) : String :=
  match m.find? (fun p => p.1 = k) with
  | some p => p.2
  | none => d

/-- Result of a PGN import (pgnUtils.ts, interface PGNImportResult). -/
structure PGNImportResult where
  rootNodes : List MoveNode
  metadata : PGNMetadata
  errors : List String
  warnings : List String
deriving Repr

-- ===========================================================================
-- Tokenizer (pgnUtils.ts, tokenizePgn and filterComment)
-- ===========================================================================

/-- One global pass of stripping bracketed directives: every occurrence of
the given literal pattern (matched case-insensitively, as the source
regexes use the i flag) followed by any characters other than a closing
bracket and then a closing bracket is removed.  Fuel makes the recursion
structural; each step consumes at least one character. -/
def stripPatAux (pat : List Char) : Nat → List Char → List Char
  | 0, s => s
  | _ + 1, [] => []
  | fuel + 1, c :: cs =>
    if ciStartsWith pat (c :: cs) then
      let after := (c :: cs).drop pat.length
      let mid := after.takeWhile (· ≠ ']')
      match after.drop mid.length with
      | ']' :: rest => stripPatAux pat fuel rest
      | _ => c :: stripPatAux pat fuel cs
    else c :: stripPatAux pat fuel cs

/-- Global removal of a bracketed-directive pattern from a character
list. -/
def stripPat (pat s : List Char) : List Char :=
  stripPatAux pat (s.length + 1) s

/-- Filter Lichess-specific annotations from comments (pgnUtils.ts,
filterComment): strip cal directives, then csl directives, then any
remaining percent-bracket directive, then trim. -/
def filterComment (comment : String) : String :=
  let s1 := stripPat "[%cal".data comment.data
  let s2 := stripPat "[%csl".data s1
  let s3 := stripPat "[%".data s2
  (jsTrimList s3).asString

/-- Match the body of a header tag right after its opening bracket: one
or more word characters, one or more whitespace characters, a quoted
value without embedded quotes, and the two closing characters.  Returns
the key, the value and the number of characters consumed after the
opening bracket.  This is the deterministic reading of the source regex
for header tags. -/
def matchTagAfterBracket (cs : List Char) : Option (String × String × Nat) :=
  let key := cs.takeWhile isWordChar
  if key = [] then none else
  let r1 := cs.drop key.length
  let sp := r1.takeWhile jsWhitespace
  if sp = [] then none else
  match r1.drop sp.length with
  | '"' :: r3 =>
    let val := r3.takeWhile (· ≠ '"')
    match r3.drop val.length with
    | '"' :: ']' :: _ =>
      some (key.asString, val.asString, key.length + sp.length + 1 + val.length + 2)
    | _ => none
  | _ => none

/-- Scan the whole input for header tags, like the global exec loop of
the source: at each position try to match a tag; on a match record it and
continue after it, remembering the index one past the last match;
otherwise advance one character. -/
def extractTagsAux : Nat → List Char → Nat → PGNMetadata → Nat → PGNMetadata × Nat
  | 0, _, _, acc, lastEnd => (acc, lastEnd)
  | _ + 1, [], _, acc, lastEnd => (acc, lastEnd)
  | fuel + 1, c :: cs, p, acc, lastEnd =>
    if c = '[' then
      match matchTagAfterBracket cs with
      | some (k, v, blen) =>
        extractTagsAux fuel (cs.drop blen) (p + 1 + blen) (setTag acc k v) (p + 1 + blen)
      | none => extractTagsAux fuel cs (p + 1) acc lastEnd
    else extractTagsAux fuel cs (p + 1) acc lastEnd

/-- Follow-set test of the result-token regex: the matched result must be
followed by whitespace, the end of the input or a closing parenthesis. -/
def resultFollowOk : List Char → Bool
  | [] => true
  | c :: _ => jsWhitespace c || c = ')'

/-- Test one alternative of the result-token regex at the given point. -/
def resultPrefixAt (lit : String) (cs : List Char) : Bool :=
  lit.data.isPrefixOf cs && resultFollowOk (cs.drop lit.length)

/-- Match a game-result token at the given point.  The four alternatives
have mutually exclusive first characters, so their order never matters,
but the source order is kept. -/
def resultAt (cs : List Char) : Option String :=
  if resultPrefixAt "1-0" cs then some "1-0"
  else if resultPrefixAt "0-1" cs then some "0-1"
  else if resultPrefixAt "1/2-1/2" cs then some "1/2-1/2"
  else if resultPrefixAt "*" cs then some "*"
  else none

/-- Match a move number at the given point: one or more digits followed
by three dots or one dot; the token keeps only the digits while the dots
are consumed. -/
def moveNumAt (cs : List Char) : Option (String × Nat) :=
  let ds := cs.takeWhile isDigitChar
  if ds = [] then none else
  let r := cs.drop ds.length
  if "...".data.isPrefixOf r then some (ds.asString, ds.length + 3)
  else if ".".data.isPrefixOf r then some (ds.asString, ds.length + 1)
  else none

/-- Match a symbolic annotation glyph, longest alternatives first as in
the source regex. -/
def symbolicNagAt (cs : List Char) : Option String :=
  if "??".data.isPrefixOf cs then some "??"
  else if "?!".data.isPrefixOf cs then some "?!"
  else if "!?".data.isPrefixOf cs then some "!?"
  else if "!!".data.isPrefixOf cs then some "!!"
  else if "?".data.isPrefixOf cs then some "?"
  else if "!".data.isPrefixOf cs then some "!"
  else none

/-- Piece-letter class of the SAN regex, case-insensitive because the
regex carries the i flag. -/
def isPieceCi (c : Char) : Bool :=
  let l := c.toLower
  l = 'k' || l = 'q' || l = 'r' || l = 'b' || l = 'n'

/-- File-letter class of the SAN regex, case-insensitive. -/
def isFileCi (c : Char) : Bool :=
  let l := c.toLower
  'a' ≤ l && l ≤ 'h'

/-- Rank-digit class of the SAN regex. -/
def isRankChar (c : Char) : Bool :=
  '1' ≤ c && c ≤ '8'

/-- Capture-marker class of the SAN regex, case-insensitive. -/
def isXCi (c : Char) : Bool :=
  c.toLower = 'x'

/-- Promotion-piece class of the SAN regex, case-insensitive. -/
def isPromoPieceCi (c : Char) : Bool :=
  let l := c.toLower
  l = 'q' || l = 'r' || l = 'b' || l = 'n'

/-- Check or checkmate suffix character. -/
def isCheckChar (c : Char) : Bool :=
  c = '+' || c = '#'

/-- Tail of the SAN regex: the destination square, an optional promotion
group and an optional check suffix; returns the number of characters
matched.  The two trailing groups are greedy and, being at the end of the
pattern, never force backtracking. -/
def sanTail : List Char → Option Nat
  | a :: b :: rest =>
    if isFileCi a && isRankChar b then
      let (p, rest2) : Nat × List Char :=
        match rest with
        | '=' :: q :: r2 => if isPromoPieceCi q then (2, r2) else (0, rest)
        | _ => (0, rest)
      let k : Nat :=
        match rest2 with
        | c :: _ => if isCheckChar c then 1 else 0
        | [] => 0
      some (2 + p + k)
    else none
  | _ => none

/-- Greedy optional single-character group with backtracking, the way the
regex engine treats each question-mark group of the SAN pattern: first
try to consume a matching character and continue, and if the continuation
fails, retry without consuming. -/
def sanOpt (p : Char → Bool) (k : List Char → Option Nat) : List Char → Option Nat
  | [] => k []
  | c :: cs =>
    if p c then
      match k cs with
      | some n => some (n + 1)
      | none => k (c :: cs)
    else k (c :: cs)

/-- Core alternative of the SAN regex: optional piece letter, optional
disambiguating file, optional disambiguating rank, optional capture
marker, then the mandatory tail. -/
def sanCore (cs : List Char) : Option Nat :=
  sanOpt isPieceCi (sanOpt isFileCi (sanOpt isRankChar (sanOpt isXCi sanTail))) cs

/-- Castling normalization applied to a matched SAN candidate: every
zero-form castle becomes the letter-O form (the replacements the source
applies globally to the matched text). -/
def normalizeCastling (s : List Char) : String :=
  (replaceAllChars "0-0".data "O-O".data
    (replaceAllChars "0-0-0".data "O-O-O".data s)).asString

/-- Match a SAN move candidate at the given point: the four castling
alternatives in source order, then the core pattern; the value is the
matched text after castling normalization and the length is the number of
input characters consumed. -/
def sanAt (cs : List Char) : Option (String × Nat) :=
  let len : Option Nat :=
    if ciStartsWith "O-O-O".data cs then some 5
    else if ciStartsWith "O-O".data cs then some 3
    else if ciStartsWith "0-0-0".data cs then some 5
    else if ciStartsWith "0-0".data cs then some 3
    else sanCore cs
  match len with
  | some n => some (normalizeCastling (cs.take n), n)
  | none => none

/-- Main tokenizer loop over the movetext (pgnUtils.ts, tokenizePgn).
Fuel makes the recursion structural; every step consumes at least one
character, so the fuel supplied by the wrapper is always sufficient.  The
branch order follows the source: whitespace, braced comment, line
comment, variation parentheses, numeric annotation glyph, result token,
move number, symbolic annotation glyph, SAN candidate, lenient skip. -/
def tokenizeAux : Nat → List Char → List Token
  | 0, _ => []
  | _ + 1, [] => []
  | fuel + 1, c :: cs =>
    if jsWhitespace c then tokenizeAux fuel cs
    else if c = lbrace then
      let inner := cs.takeWhile (· ≠ rbrace)
      if inner.length = cs.length then
        -- unclosed comment: take the rest of the input, push
        -- unconditionally, and stop
        [⟨.COMMENT, filterComment (jsTrimList inner).asString⟩]
      else
        let commentText := (jsTrimList inner).asString
        let rest := cs.drop (inner.length + 1)
        if commentText ≠ "" then
          ⟨.COMMENT, filterComment commentText⟩ :: tokenizeAux fuel rest
        else tokenizeAux fuel rest
    else if c = ';' then
      let inner := cs.takeWhile (· ≠ '\n')
      let commentText := (jsTrimList inner).asString
      let rest := cs.drop (inner.length + 1)
      if commentText ≠ "" then
        ⟨.COMMENT, filterComment commentText⟩ :: tokenizeAux fuel rest
      else tokenizeAux fuel rest
    else if c = '(' then ⟨.VARIATION_START, "("⟩ :: tokenizeAux fuel cs
    else if c = ')' then ⟨.VARIATION_END, ")"⟩ :: tokenizeAux fuel cs
    else if c = '$' then
      let ds := cs.takeWhile isDigitChar
      if ds ≠ [] then
        ⟨.NAG, "$" ++ ds.asString⟩ :: tokenizeAux fuel (cs.drop ds.length)
      else
        -- a lone dollar sign falls through every later pattern (none of
        -- them matches a leading dollar sign) and is skipped leniently
        tokenizeAux fuel cs
    else
      match resultAt (c :: cs) with
      | some v => ⟨.RESULT, v⟩ :: tokenizeAux fuel (cs.drop (v.length - 1))
      | none =>
        match moveNumAt (c :: cs) with
        | some (v, len) => ⟨.MOVE_NUMBER, v⟩ :: tokenizeAux fuel (cs.drop (len - 1))
        | none =>
          match symbolicNagAt (c :: cs) with
          | some v => ⟨.NAG, v⟩ :: tokenizeAux fuel (cs.drop (v.length - 1))
          | none =>
            match sanAt (c :: cs) with
            | some (v, len) => ⟨.MOVE, v⟩ :: tokenizeAux fuel (cs.drop (len - 1))
            | none => tokenizeAux fuel cs

/-- PGN tokenizer (pgnUtils.ts, tokenizePgn): extract the header tags,
then tokenize the trimmed movetext that follows the last recognized
tag. -/
def tokenizePgn (pgn : String) : PGNMetadata × List Token :=
  let (tags, lastTagEnd) := extractTagsAux (pgn.data.length + 1) pgn.data 0 [] 0
  let movetext := jsTrimList (pgn.data.drop lastTagEnd)
  (tags, tokenizeAux (movetext.length + 1) movetext)

-- ===========================================================================
-- AST builder (pgnUtils.ts, buildAst)
-- ===========================================================================

/-- Shared mutable state of the AST builder: the pending comment, the
pending annotation glyphs and the game result.  In the source these are
closure variables shared across every nesting level of parseSequence. -/
structure BuildState where
  pendingComment : Option String
  pendingNags : List String
  result : Option String
deriving Repr

/-- Test whether a sequence ends in a MOVE node, the condition the source
uses before attaching a comment, a glyph or a variation to the preceding
move. -/
def endsWithMove (l : List AstNode) : Bool :=
  match l.getLast? with
  | some n => n.type == AstType.MOVE
  | none => false

/-- Update the last element of a list in place. -/
def updateLast (f : AstNode → AstNode) : List AstNode → List AstNode
  | [] => []
  | [x] => [f x]
  | x :: y :: xs => x :: updateLast f (y :: xs)

/-- Set the comment of an AST node (assignment, overwriting any previous
comment). -/
def AstNode.setComment (v : String) : AstNode → AstNode
  | .mk t s n _ ch => .mk t s n (some v) ch

/-- Append an annotation glyph to an AST node. -/
def AstNode.addNag (v : String) : AstNode → AstNode
  | .mk t s n c ch => .mk t s (n ++ [v]) c ch

/-- Append a child (an attached variation) to an AST node. -/
def AstNode.addChild (child : AstNode) : AstNode → AstNode
  | .mk t s n c ch => .mk t s n c (ch ++ [child])

/-- Attach a parsed variation body to the last MOVE node of the enclosing
sequence; when the enclosing sequence has no trailing MOVE node the
variation is discarded, as in the source. -/
def attachVariation (parentSeq body : List AstNode) : List AstNode :=
  if endsWithMove parentSeq then
    updateLast (AstNode.addChild (AstNode.mk .VARIATION none [] none body)) parentSeq
  else parentSeq

/-- When the tokens run out inside nested variations, every recursive
parseSequence call of the source returns in turn and each pending
variation body is attached to its enclosing sequence, innermost first. -/
def collapseStack (current : List AstNode) (stack : List (List AstNode)) : List AstNode :=
  stack.foldl (fun body parentSeq => attachVariation parentSeq body) current

/-- Iterative form of the recursive-descent AST builder (pgnUtils.ts,
buildAst / parseSequence).  The explicit stack holds the enclosing
sequences of the open variations; the builder state is shared across all
levels exactly as the closure variables of the source are.  A stray
variation-end token at the top level stops the whole parse, because the
top-level parseSequence of the source returns there. -/
def buildAstLoop : List Token → List AstNode → List (List AstNode) → BuildState →
    List AstNode × BuildState
  | [], current, stack, st => (collapseStack current stack, st)
  | t :: ts, current, stack, st =>
    match t.type with
    | .COMMENT =>
      if endsWithMove current then
        buildAstLoop ts (updateLast (AstNode.setComment t.value) current) stack st
      else
        buildAstLoop ts current stack { st with pendingComment := some t.value }
    | .NAG =>
      if endsWithMove current then
        buildAstLoop ts (updateLast (AstNode.addNag t.value) current) stack st
      else
        buildAstLoop ts current stack { st with pendingNags := st.pendingNags ++ [t.value] }
    | .MOVE_NUMBER => buildAstLoop ts current stack st
    | .RESULT => buildAstLoop ts current stack { st with result := some t.value }
    | .MOVE =>
      -- the pending comment attaches only when truthy, and an empty
      -- pending comment is neither attached nor cleared, as in the source
      let cmSt : Option String × BuildState :=
        match st.pendingComment with
        | some v => if v ≠ "" then (some v, { st with pendingComment := none }) else (none, st)
        | none => (none, st)
      let st1 := cmSt.2
      let node := AstNode.mk .MOVE (some t.value) st1.pendingNags cmSt.1 []
      buildAstLoop ts (current ++ [node]) stack { st1 with pendingNags := [] }
    | .VARIATION_START => buildAstLoop ts [] (current :: stack) st
    | .VARIATION_END =>
      match stack with
      | [] => (current, st)
      | parentSeq :: rest => buildAstLoop ts (attachVariation parentSeq current) rest st

/-- AST builder entry point (pgnUtils.ts, buildAst). -/
def buildAst (tokens : List Token) : List AstNode × Option String :=
  let (ast, st) := buildAstLoop tokens [] [] ⟨none, [], none⟩
  (ast, st.result)

-- ===========================================================================
-- Move-tree builder (pgnUtils.ts, astToMoveTree) and import
-- ===========================================================================

/-- Remove one trailing check or checkmate symbol, the cleanup the source
applies before retrying a failed move. -/
def stripCheckSuffix (s : String) : String :=
  match s.data.getLast? with
  | some c => if c = '+' || c = '#' then s.data.dropLast.asString else s
  | none => s

/-- Apply a SAN move through the rules engine the way astToMoveTree does:
try the SAN as written, and on failure retry with a trailing check or
checkmate symbol stripped. -/
def tryApply (E : Engine) (fen san : String) : Option (MoveData × String) :=
  match E fen san with
  | some r => some r
  | none => E fen (stripCheckSuffix san)

/-- Truthiness filter for an optional string: the source guards both the
san and comment fields with JavaScript truthiness, under which an empty
string counts as absent. -/
def truthyStr : Option String → Option String
  | some v => if v = "" then none else some v
  | none => none

theorem astNode_sizeOf_children_lt (n : AstNode) : sizeOf n.children < sizeOf n := by
  cases n with
  | mk t s ng cm ch =>
    simp [AstNode.children]
    try omega

theorem sizeOf_filter_le (p : AstNode → Bool) (l : List AstNode) :
    sizeOf (l.filter p) ≤ sizeOf l := by
  induction l with
  | nil => simp
  | cons x xs ih =>
    by_cases h : p x
    · simp [List.filter, h]
      omega
    · simp [List.filter, h]
      omega

/-- Depth-first walk of the AST building the persisted move tree
(pgnUtils.ts, astToMoveTree / processSequence), written functionally: the
returned node list is the list of new children the walk appends to the
running parent (to the root forest when the parent is null), paired with
the error messages in emission order.

For a MOVE node whose SAN the engine accepts, the new node is created
with the position returned by the engine, the surrounding isMainLine
flag, and the AST comment (annotation glyphs are not copied — the
persisted MoveNode has no such field); the attached variations are
processed against the position before the move with the same parent and a
false flag, so their trees are appended to the parent right after the
node, and the rest of the sequence builds the children of the new node
since the running parent advances to it.  When the engine rejects the
SAN (also after the retry), an error is recorded and the walk continues
with the rest of the sequence against the unchanged position and parent.
A VARIATION node occurring directly in a sequence is processed against
the current position with a false flag and the walk continues; any other
node is skipped.  The filter keeping only VARIATION children mirrors the
type test of the variation loop in the source. -/
def processSeq (E : Engine) : List AstNode → String → Bool → List MoveNode × List String
  | [], _, _ => ([], [])
  | n :: rest, fen, isMain =>
    match truthyStr n.san, n.type with
    | some san, .MOVE =>
      (match tryApply E fen san with
       | none =>
         let r := processSeq E rest fen isMain
         (r.1, ("Invalid move: " ++ san ++ " at position") :: r.2)
       | some (mv, newFen) =>
         let cont := processSeq E rest newFen isMain
         let vres := processSeq E (n.children.filter (fun v => v.type == AstType.VARIATION)) fen false
         (MoveNode.mk mv newFen isMain (truthyStr n.comment) cont.1 :: vres.1,
          vres.2 ++ cont.2))
    | _, .VARIATION =>
      let a := processSeq E n.children fen false
      let b := processSeq E rest fen isMain
      (a.1 ++ b.1, a.2 ++ b.2)
    | _, _ => processSeq E rest fen isMain
termination_by ns => sizeOf ns
decreasing_by
  all_goals
    first
    | (have h1 := sizeOf_filter_le (fun v => v.type == AstType.VARIATION) n.children
       have h2 := astNode_sizeOf_children_lt n
       simp
       omega)
    | (have h2 := astNode_sizeOf_children_lt n
       simp
       omega)
    | (simp
       omega)
    | simp

/-- Move-tree builder entry point (pgnUtils.ts, astToMoveTree): process
the top-level sequence with no parent and a true main-line flag; the
returned trees are the root forest.  The source threads mutable error and
warning arrays; warnings are never pushed, so only the errors appear. -/
def astToMoveTree (E : Engine) (ast : List AstNode) (startFen : String) :
    List MoveNode × List String :=
  processSeq E ast startFen true

/-- Default starting position used by the importer and the exporter. -/
def defaultStartFen : String :=
  "rnbqkbnr/pppppppp/8/8/8/8/PPPPPPPP/RNBQKBNR w KQkq - 0 1"

/-- Starting position of the import: the header FEN tag when truthy,
else the caller-supplied FEN when truthy, else the default starting
position (the falsy-or chain of the source). -/
def importStartFen (tags : PGNMetadata) (initialFen : Option String) : String :=
  let headerFen := jsTrim (lookupTagD tags "FEN" "")
  if headerFen ≠ "" then headerFen
  else match initialFen with
    | some f => if f ≠ "" then f else defaultStartFen
    | none => defaultStartFen

/-- Merge of the builder result token into the header tags: assignment of
metadata.Result when a result token was seen. -/
def mergeResultTag (tags : PGNMetadata) (result : Option String) : PGNMetadata :=
  match result with
  | some r => setTag tags "Result" r
  | none => tags

/-- PGN import (pgnUtils.ts, importFromPGN): reject blank input with a
single error, otherwise tokenize, build the AST, pick the starting
position, build the move tree, merge the result token into the metadata,
and flag inputs whose move tokens all failed.  The rules engine is a
parameter; engine failures are values, so the source try/catch around the
pipeline has no failing path to model. -/
def importFromPGN (E : Engine) (pgn : String) (initialFen : Option String) :
    PGNImportResult :=
  if jsTrim pgn = "" then
    { rootNodes := [], metadata := [], errors := ["PGN text is empty"], warnings := [] }
  else
    let (tags, tokens) := tokenizePgn pgn
    let (ast, result) := buildAst tokens
    let startFen := importStartFen tags initialFen
    let (rootNodes, errors) := astToMoveTree E ast startFen
    let metadata := mergeResultTag tags result
    let errors :=
      if rootNodes.isEmpty && tokens.any (fun t => t.type == TokenType.MOVE) then
        errors ++ ["No valid moves found in PGN. Please check the format."]
      else errors
    { rootNodes := rootNodes, metadata := metadata, errors := errors, warnings := [] }

-- ===========================================================================
-- Interactive move insertion (the board component's makeMove handler)
-- ===========================================================================

/-- Duplicate-move test of the interactive insertion: same canonical SAN
and same from/to squares. -/
def moveMatches (c : MoveNode) (mv : MoveData) : Bool :=
  c.move.san == mv.san && c.move.fromSq == mv.fromSq && c.move.toSq == mv.toSq

/-- State update of the makeMove handler after the engine accepted the
played move (the branch over the current sibling list: the children of
the current node, or the root forest when the navigator is at the start
position; the two source branches are structurally identical over that
list).  When a matching sibling already exists the navigator moves to it
and the list is unchanged; otherwise a new node is appended whose
main-line flag records whether the sibling list was empty before the
insertion.  Returns the updated sibling list and the new current node. -/
def makeMoveUpdate (siblings : List MoveNode) (mv : MoveData) (newFen : String) :
    List MoveNode × MoveNode :=
  match siblings.find? (fun c => moveMatches c mv) with
  | some c => (siblings, c)
  | none =>
    let node := MoveNode.mk mv newFen siblings.isEmpty none []
    (siblings ++ [node], node)

-- ===========================================================================
-- PGN export (pgnUtils.ts, exportToPGN)
-- ===========================================================================

/-- Comment cleanup before emission: remove every closing brace, then
turn every newline into a space (the two global replaces of the
source). -/
def cleanCommentText (cm : String) : String :=
  ((cm.data.filter (· ≠ rbrace)).map (fun c => if c = '\n' then ' ' else c)).asString

/-- Emitted parts for a truthy comment of a node: the cleaned comment in
braces, or nothing. -/
def commentParts (n : MoveNode) : List String :=
  match n.comment with
  | some cm => if cm ≠ "" then ["\x7b " ++ cleanCommentText cm ++ " \x7d"] else []
  | none => []

/-- Index of the designated main-line element of a sibling list: the
first element flagged main line, or the first element when none is
flagged (the find-or-first idiom of the source). -/
def mainIdx (children : List MoveNode) : Nat :=
  match children.findIdx? (fun c => c.isMainLine) with
  | some i => i
  | none => 0

/-- Move number and side to move derived from the parent position
(pgnUtils.ts, getMoveInfo): the position consulted is the parent node
position when a parent exists and its stored FEN is truthy, else the
export starting position (the falsy-or of the source over the optional
parent back-reference); field 1 of the space-split FEN gives the side to
move (defaulting to white when absent or empty) and field 5 gives the
fullmove number (defaulting to 1 when absent, not a number, or zero,
through the falsy-or of the source). -/
def getMoveInfo (startFen : String) (parentFen : Option String) : Int × Bool :=
  let pf :=
    match parentFen with
    | some f => if f ≠ "" then f else startFen
    | none => startFen
  let fenParts := jsSplitSpace pf
  let t := fenParts.getD 1 ""
  let turnBefore := if t ≠ "" then t else "w"
  let fullMoves : Int :=
    match jsParseInt (fenParts.getD 5 "") with
    | some k => if k = 0 then 1 else k
    | none => 1
  (fullMoves, turnBefore == "w")

/-- Format a single move with an optional move number (pgnUtils.ts,
formatMove): a white move always carries its number with one dot, a black
move carries its number with three dots only when forced, and the SAN
follows.  The parent position (none for a root) is supplied by the
caller, which replaces the parent back-reference of the source: every
caller knows the node's parent. -/
def formatMove (startFen : String) (parentFen : Option String) (n : MoveNode)
    (forceNumber : Bool) : String :=
  let info := getMoveInfo startFen parentFen
  (if info.2 then toString info.1 ++ ". "
   else if forceNumber then toString info.1 ++ "... "
   else "") ++ n.move.san

theorem mainIdx_lt (l : List MoveNode) (h : l ≠ []) : mainIdx l < l.length := by
  unfold mainIdx
  cases hf : l.findIdx? (fun c => c.isMainLine) with
  | some i =>
    simp only []
    exact (List.findIdx?_eq_some_iff_findIdx_eq.mp hf).1
  | none =>
    simp only []
    cases l with
    | nil => exact absurd rfl h
    | cons a as => simp

theorem moveNode_sizeOf_children_lt (n : MoveNode) : sizeOf n.children < sizeOf n := by
  cases n with
  | mk mv f ml cm ch =>
    simp [MoveNode.children]
    try omega

theorem sizeOf_eraseIdx_le (l : List MoveNode) (i : Nat) :
    sizeOf (l.eraseIdx i) ≤ sizeOf l := by
  induction l generalizing i with
  | nil => simp [List.eraseIdx]
  | cons x xs ih =>
    cases i with
    | zero =>
      simp [List.eraseIdx]
      try omega
    | succ j =>
      have := ih j
      simp [List.eraseIdx]
      omega

theorem sizeOf_mainChild_lt (n : MoveNode) (h : n.children ≠ []) :
    sizeOf (n.children.getD (mainIdx n.children) default) < sizeOf n := by
  have hm : n.children.getD (mainIdx n.children) default ∈ n.children := by
    have hlt := mainIdx_lt n.children h
    rw [List.getD_eq_getElem n.children default hlt]
    exact n.children.getElem_mem hlt
  have h1 := List.sizeOf_lt_of_mem hm
  have h2 := moveNode_sizeOf_children_lt n
  omega

theorem sizeOf_eraseIdx_lt_node (n : MoveNode) :
    sizeOf (n.children.eraseIdx (mainIdx n.children)) < sizeOf n := by
  have h1 := sizeOf_eraseIdx_le n.children (mainIdx n.children)
  have h2 := moveNode_sizeOf_children_lt n
  omega

mutual
/-- Recursive export of a complete line including its head move
(pgnUtils.ts, exportLineRecursive): emit the move and its comment, then
every non-main child as a parenthesized variation, then continue down the
designated main-line child, forcing a number when variations were
emitted.  The children are emitted against this node's stored position
(their parent position). -/
def exportLine (startFen : String) (parentFen : Option String) (n : MoveNode)
    (needsMoveNumber : Bool) : List String :=
  let head := formatMove startFen parentFen n needsMoveNumber :: commentParts n
  match hch : n.children with
  | [] => head
  | _ :: _ =>
    let mainChild := n.children.getD (mainIdx n.children) default
    let variations := n.children.eraseIdx (mainIdx n.children)
    head ++ exportVars startFen (some n.fen) variations
         ++ exportLine startFen (some n.fen) mainChild (!variations.isEmpty)
termination_by sizeOf n
decreasing_by
  all_goals first
    | exact sizeOf_eraseIdx_lt_node n
    | exact sizeOf_mainChild_lt n (by rw [hch]; simp)
    | (simp
       omega)
    | simp

/-- Emission of a list of variations, each fully parenthesized with a
forced move number on its first move (the variation loops of the
source). -/
def exportVars (startFen : String) (parentFen : Option String)
    (vs : List MoveNode) : List String :=
  match vs with
  | [] => []
  | v :: rest =>
    ("(" :: exportLine startFen parentFen v true)
      ++ (")" :: exportVars startFen parentFen rest)
termination_by sizeOf vs
decreasing_by
  all_goals first
    | (simp
       omega)
    | simp
end

/-- Export from a node downward (pgnUtils.ts, exportFromNode): emit the
node's designated main-line child with its comment, then the remaining
children as parenthesized variations, then recurse from the main-line
child; a number is forced when the previous step emitted variations.  All
children are emitted against this node's stored position. -/
def exportFrom (startFen : String) (n : MoveNode) (forceNextMoveNumber : Bool) :
    List String :=
  match hch : n.children with
  | [] => []
  | _ :: _ =>
    let mainChild := n.children.getD (mainIdx n.children) default
    let variations := n.children.eraseIdx (mainIdx n.children)
    let needsNumber := forceNextMoveNumber || !variations.isEmpty
    (formatMove startFen (some n.fen) mainChild needsNumber :: commentParts mainChild)
      ++ exportVars startFen (some n.fen) variations
      ++ exportFrom startFen mainChild (!variations.isEmpty)
termination_by sizeOf n
decreasing_by
  all_goals first
    | exact sizeOf_eraseIdx_lt_node n
    | exact sizeOf_mainChild_lt n (by rw [hch]; simp)

/-- Whitespace normalization pass: an opening parenthesis followed by a
whitespace run becomes an opening parenthesis and one space. -/
def collapseAfterParenAux : Nat → List Char → List Char
  | 0, s => s
  | _ + 1, [] => []
  | fuel + 1, c :: cs =>
    if c = '(' then
      let ws := cs.takeWhile jsWhitespace
      if ws ≠ [] then '(' :: ' ' :: collapseAfterParenAux fuel (cs.drop ws.length)
      else '(' :: collapseAfterParenAux fuel cs
    else c :: collapseAfterParenAux fuel cs

/-- Whitespace normalization pass: a whitespace run followed by a closing
parenthesis becomes one space and the parenthesis. -/
def collapseBeforeParenAux : Nat → List Char → List Char
  | 0, s => s
  | _ + 1, [] => []
  | fuel + 1, c :: cs =>
    if jsWhitespace c then
      let ws := cs.takeWhile jsWhitespace
      match cs.drop ws.length with
      | ')' :: rest => ' ' :: ')' :: collapseBeforeParenAux fuel rest
      | _ => c :: collapseBeforeParenAux fuel cs
    else c :: collapseBeforeParenAux fuel cs

/-- Whitespace normalization pass: every whitespace run becomes one
space. -/
def collapseWSAux : Nat → List Char → List Char
  | 0, s => s
  | _ + 1, [] => []
  | fuel + 1, c :: cs =>
    if jsWhitespace c then ' ' :: collapseWSAux fuel (cs.dropWhile jsWhitespace)
    else c :: collapseWSAux fuel cs

/-- The three movetext normalization replaces of the source followed by
the final trim. -/
def normalizeMoveText (s : String) : String :=
  let p1 := collapseAfterParenAux (s.data.length + 1) s.data
  let p2 := collapseBeforeParenAux (p1.length + 1) p1
  let p3 := collapseWSAux (p2.length + 1) p2
  (jsTrimList p3).asString

/-- Emitted header value for one roster tag: the metadata value when
truthy, else the given default (the falsy-or chain the source applies
when building and emitting the tag object). -/
def headerValue (metadata : PGNMetadata) (k d : String) : String :=
  let v := lookupTagD metadata k ""
  if v ≠ "" then v else d

/-- The Seven Tag Roster block emitted at the top of every export. -/
def sevenTagRoster (metadata : PGNMetadata) (resultValue : String) : String :=
  "[Event \"" ++ headerValue metadata "Event" "?" ++ "\"]\n" ++
  "[Site \"" ++ headerValue metadata "Site" "?" ++ "\"]\n" ++
  "[Date \"" ++ headerValue metadata "Date" "????.??.??" ++ "\"]\n" ++
  "[Round \"" ++ headerValue metadata "Round" "?" ++ "\"]\n" ++
  "[White \"" ++ headerValue metadata "White" "?" ++ "\"]\n" ++
  "[Black \"" ++ headerValue metadata "Black" "?" ++ "\"]\n" ++
  "[Result \"" ++ resultValue ++ "\"]\n"

/-- The Seven Tag Roster key set. -/
def rosterKeys : List String :=
  ["Event", "Site", "Date", "Round", "White", "Black", "Result"]

/-- Additional header lines: every non-roster metadata tag with a truthy
value, in metadata order (the key-insertion order of the merged tag
object). -/
def extraTagLines (metadata : PGNMetadata) : String :=
  String.join ((metadata.filter (fun p => !(rosterKeys.contains p.1) && p.2 ≠ "")).map
    (fun p => "[" ++ p.1 ++ " \"" ++ p.2 ++ "\"]\n"))

/-- Result token emitted by the exporter: the metadata Result value when
truthy, else a star. -/
def exportResultValue (metadata : PGNMetadata) : String :=
  let r := lookupTagD metadata "Result" ""
  if r ≠ "" then r else "*"

/-- Starting position of the export: the caller-supplied FEN when truthy,
else the default (the falsy-or of the source). -/
def exportStartFen (initialFen : Option String) : String :=
  match initialFen with
  | some f => if f ≠ "" then f else defaultStartFen
  | none => defaultStartFen

/-- PGN export (pgnUtils.ts, exportToPGN): an empty forest exports to the
empty string; otherwise the main root is emitted first, the other roots
follow as parenthesized variations, the main line is walked downward, the
result token is appended, the movetext is normalized, and the Seven Tag
Roster plus extra tags precede it. -/
def exportToPGN (rootNodes : List MoveNode) (initialFen : Option String)
    (metadata : PGNMetadata) : String :=
  if rootNodes.isEmpty then ""
  else
    let startFen := exportStartFen initialFen
    let mainRoot := rootNodes.getD (mainIdx rootNodes) default
    let altRoots := rootNodes.eraseIdx (mainIdx rootNodes)
    let parts :=
      (formatMove startFen none mainRoot true :: commentParts mainRoot)
        ++ exportVars startFen none altRoots ++ exportFrom startFen mainRoot false
    let joined := String.intercalate " " (parts ++ [exportResultValue metadata])
    let moveText := normalizeMoveText joined
    sevenTagRoster metadata (exportResultValue metadata) ++ extraTagLines metadata
      ++ "\n" ++ moveText

-- ===========================================================================
-- Tree predicates
-- ===========================================================================

/-- Count of main-line members of a sibling list. -/
def mainCount (l : List MoveNode) : Nat :=
  (l.filter (fun c => c.isMainLine)).length

/-- Every sibling set inside the subtree (the children list of the root
and, recursively, of every descendant) has at most one main-line
member. -/
inductive TreeUnique : MoveNode → Prop
  | mk {mv : MoveData} {fen : String} {ml : Bool} {cm : Option String}
       {children : List MoveNode} :
      mainCount children ≤ 1 →
      (∀ c ∈ children, TreeUnique c) →
      TreeUnique (MoveNode.mk mv fen ml cm children)

/-- Every node of the subtree carries a false main-line flag. -/
inductive AllFalse : MoveNode → Prop
  | mk {mv : MoveData} {fen : String} {cm : Option String}
       {children : List MoveNode} :
      (∀ c ∈ children, AllFalse c) →
      AllFalse (MoveNode.mk mv fen false cm children)

/-- Position invariant relative to the rules engine: the stored position
of the node is what the engine returns when the node's canonical SAN is
applied to the parent position, recursively down the subtree. -/
inductive PosInv (E : Engine) : String → MoveNode → Prop
  | mk {pfen : String} {mv : MoveData} {fen : String} {ml : Bool}
       {cm : Option String} {children : List MoveNode} :
      E pfen mv.san = some (mv, fen) →
      (∀ c ∈ children, PosInv E fen c) →
      PosInv E pfen (MoveNode.mk mv fen ml cm children)

/-- Canonicity of the rules engine, the documented contract of the
collaborator: re-applying the canonical SAN it returned for a move
reproduces the same move and resulting position. -/
def Canonical (E : Engine) : Prop :=
  ∀ fen san mv fen2, E fen san = some (mv, fen2) → E fen mv.san = some (mv, fen2)

theorem mainCount_nil : mainCount [] = 0 := rfl

theorem mainCount_cons (x : MoveNode) (l : List MoveNode) :
    mainCount (x :: l) = (if x.isMainLine then 1 else 0) + mainCount l := by
  by_cases h : x.isMainLine
  · simp [mainCount, List.filter, h]
    omega
  · simp [mainCount, List.filter, h]

theorem mainCount_append (a b : List MoveNode) :
    mainCount (a ++ b) = mainCount a + mainCount b := by
  simp [mainCount, List.filter_append]

-- ===========================================================================
-- Unfolding equations of processSeq
-- ===========================================================================

theorem processSeq_nil (E : Engine) (fen : String) (flag : Bool) :
    processSeq E [] fen flag = ([], []) := by
  simp [processSeq]

theorem processSeq_move_fail (E : Engine) (n : AstNode) (rest : List AstNode)
    (fen : String) (flag : Bool) (san : String)
    (hty : n.type = AstType.MOVE) (hsan : truthyStr n.san = some san)
    (happ : tryApply E fen san = none) :
    processSeq E (n :: rest) fen flag =
      ((processSeq E rest fen flag).1,
       ("Invalid move: " ++ san ++ " at position") :: (processSeq E rest fen flag).2) := by
  conv_lhs => rw [processSeq]
  rw [hsan, hty]
  simp only [happ]

/-- Defining equation of the successful MOVE case, stated explicitly: the
new node carries the engine position, the surrounding main-line flag, the
truthy AST comment and, as children, the trees of the rest of the
sequence replayed from the new position; the trees of the attached
variations, replayed from the position before the move with a false
flag, follow the node at the same level (siblings of the node, children
of the node's parent). -/
theorem processSeq_move_ok (E : Engine) (n : AstNode) (rest : List AstNode)
    (fen : String) (flag : Bool) (san : String) (mv : MoveData) (newFen : String)
    (hty : n.type = AstType.MOVE) (hsan : truthyStr n.san = some san)
    (happ : tryApply E fen san = some (mv, newFen)) :
    processSeq E (n :: rest) fen flag =
      (MoveNode.mk mv newFen flag (truthyStr n.comment)
          (processSeq E rest newFen flag).1
        :: (processSeq E (n.children.filter (fun v => v.type == AstType.VARIATION)) fen false).1,
       (processSeq E (n.children.filter (fun v => v.type == AstType.VARIATION)) fen false).2
        ++ (processSeq E rest newFen flag).2) := by
  conv_lhs => rw [processSeq]
  rw [hsan, hty]
  simp only [happ]

theorem processSeq_variation (E : Engine) (n : AstNode) (rest : List AstNode)
    (fen : String) (flag : Bool)
    (hty : n.type = AstType.VARIATION) :
    processSeq E (n :: rest) fen flag =
      ((processSeq E n.children fen false).1 ++ (processSeq E rest fen flag).1,
       (processSeq E n.children fen false).2 ++ (processSeq E rest fen flag).2) := by
  conv_lhs => rw [processSeq]
  cases htr : truthyStr n.san with
  | none => rw [hty]
  | some s => rw [hty]

theorem processSeq_skip (E : Engine) (n : AstNode) (rest : List AstNode)
    (fen : String) (flag : Bool)
    (hty : n.type = AstType.MOVE) (hsan : truthyStr n.san = none) :
    processSeq E (n :: rest) fen flag = processSeq E rest fen flag := by
  conv_lhs => rw [processSeq]
  rw [hsan, hty]

-- ===========================================================================
-- Inductive facts on processSeq
-- ===========================================================================

theorem canonical_tryApply {E : Engine} (hc : Canonical E) {fen san : String}
    {mv : MoveData} {fen2 : String} (h : tryApply E fen san = some (mv, fen2)) :
    E fen mv.san = some (mv, fen2) := by
  unfold tryApply at h
  cases he : E fen san with
  | some r =>
    rw [he] at h
    cases h
    exact hc fen san mv fen2 he
  | none =>
    rw [he] at h
    exact hc fen (stripCheckSuffix san) mv fen2 h

/-- Every tree produced while processing with a false main-line flag has
a false flag on every one of its nodes. -/
theorem processSeq_allFalse (E : Engine) (ns : List AstNode) (fen : String)
    (flag : Bool) :
    flag = false → ∀ t ∈ (processSeq E ns fen flag).1, AllFalse t := by
  induction ns, fen, flag using processSeq.induct E with
  | case1 fen flag =>
    intro _ t ht
    rw [processSeq_nil] at ht
    cases ht
  | case2 n rest fen flag san hty hsan happ ih =>
    intro hf t ht
    rw [processSeq_move_fail E n rest fen flag san hty hsan happ] at ht
    exact ih hf t ht
  | case3 n rest fen flag san hty hsan mv newFen happ ihCont ihVars =>
    intro hf t ht
    rw [processSeq_move_ok E n rest fen flag san mv newFen hty hsan happ] at ht
    subst hf
    cases ht with
    | head =>
      exact AllFalse.mk (fun c hc => ihCont rfl c hc)
    | tail _ hmem =>
      exact ihVars rfl t hmem
  | case4 n rest fen flag hty ihBody ihRest =>
    intro hf t ht
    rw [processSeq_variation E n rest fen flag hty] at ht
    rcases List.mem_append.mp ht with hmem | hmem
    · exact ihBody rfl t hmem
    · exact ihRest hf t hmem
  | case5 n rest fen flag h1 h2 ih =>
    intro hf t ht
    have hty : n.type = AstType.MOVE := by
      cases htyp : n.type with
      | MOVE => rfl
      | VARIATION => exact absurd htyp h1
    have hsan : truthyStr n.san = none := by
      cases hs : truthyStr n.san with
      | none => rfl
      | some s => exact absurd hty (fun hh => h2 s hs hh)
    rw [processSeq_skip E n rest fen flag hty hsan] at ht
    exact ih hf t ht

/-- Among the trees a sequence contributes to its parent, at most one
root is flagged main line when the sequence is processed as a main line,
and none is when it is processed as a variation. -/
theorem processSeq_mainCount (E : Engine) (ns : List AstNode) (fen : String)
    (flag : Bool) :
    mainCount (processSeq E ns fen flag).1 ≤ if flag then 1 else 0 := by
  induction ns, fen, flag using processSeq.induct E with
  | case1 fen flag =>
    rw [processSeq_nil]
    simp [mainCount_nil]
  | case2 n rest fen flag san hty hsan happ ih =>
    rw [processSeq_move_fail E n rest fen flag san hty hsan happ]
    exact ih
  | case3 n rest fen flag san hty hsan mv newFen happ ihCont ihVars =>
    rw [processSeq_move_ok E n rest fen flag san mv newFen hty hsan happ,
        mainCount_cons]
    have hv : mainCount (processSeq E
        (n.children.filter (fun v => v.type == AstType.VARIATION)) fen false).1 = 0 := by
      have h0 := ihVars
      simp at h0
      omega
    rw [hv]
    cases flag with
    | true => simp [MoveNode.isMainLine]
    | false => simp [MoveNode.isMainLine]
  | case4 n rest fen flag hty ihBody ihRest =>
    rw [processSeq_variation E n rest fen flag hty, mainCount_append]
    have hb : mainCount (processSeq E n.children fen false).1 = 0 := by
      have h0 := ihBody
      simp at h0
      omega
    rw [hb]
    simpa using ihRest
  | case5 n rest fen flag h1 h2 ih =>
    have hty : n.type = AstType.MOVE := by
      cases htyp : n.type with
      | MOVE => rfl
      | VARIATION => exact absurd htyp h1
    have hsan : truthyStr n.san = none := by
      cases hs : truthyStr n.san with
      | none => rfl
      | some s => exact absurd hty (fun hh => h2 s hs hh)
    rw [processSeq_skip E n rest fen flag hty hsan]
    exact ih

/-- Every tree contributed by a sequence satisfies main-line uniqueness
on all of its sibling sets. -/
theorem processSeq_treeUnique (E : Engine) (ns : List AstNode) (fen : String)
    (flag : Bool) :
    ∀ t ∈ (processSeq E ns fen flag).1, TreeUnique t := by
  induction ns, fen, flag using processSeq.induct E with
  | case1 fen flag =>
    intro t ht
    rw [processSeq_nil] at ht
    cases ht
  | case2 n rest fen flag san hty hsan happ ih =>
    intro t ht
    rw [processSeq_move_fail E n rest fen flag san hty hsan happ] at ht
    exact ih t ht
  | case3 n rest fen flag san hty hsan mv newFen happ ihCont ihVars =>
    intro t ht
    rw [processSeq_move_ok E n rest fen flag san mv newFen hty hsan happ] at ht
    cases ht with
    | head =>
      refine TreeUnique.mk ?_ (fun c hc => ihCont c hc)
      refine le_trans (processSeq_mainCount E rest newFen flag) ?_
      cases flag <;> simp
    | tail _ hm => exact ihVars t hm
  | case4 n rest fen flag hty ihBody ihRest =>
    intro t ht
    rw [processSeq_variation E n rest fen flag hty] at ht
    rcases List.mem_append.mp ht with hm | hm
    · exact ihBody t hm
    · exact ihRest t hm
  | case5 n rest fen flag h1 h2 ih =>
    intro t ht
    have hty : n.type = AstType.MOVE := by
      cases htyp : n.type with
      | MOVE => rfl
      | VARIATION => exact absurd htyp h1
    have hsan : truthyStr n.san = none := by
      cases hs : truthyStr n.san with
      | none => rfl
      | some s => exact absurd hty (fun hh => h2 s hs hh)
    rw [processSeq_skip E n rest fen flag hty hsan] at ht
    exact ih t ht

/-- Every tree contributed by a sequence satisfies the position invariant
against the position the sequence was replayed from, for any canonical
engine. -/
theorem processSeq_posInv (E : Engine) (hc : Canonical E) (ns : List AstNode)
    (fen : String) (flag : Bool) :
    ∀ t ∈ (processSeq E ns fen flag).1, PosInv E fen t := by
  induction ns, fen, flag using processSeq.induct E with
  | case1 fen flag =>
    intro t ht
    rw [processSeq_nil] at ht
    cases ht
  | case2 n rest fen flag san hty hsan happ ih =>
    intro t ht
    rw [processSeq_move_fail E n rest fen flag san hty hsan happ] at ht
    exact ih t ht
  | case3 n rest fen flag san hty hsan mv newFen happ ihCont ihVars =>
    intro t ht
    rw [processSeq_move_ok E n rest fen flag san mv newFen hty hsan happ] at ht
    cases ht with
    | head =>
      exact PosInv.mk (canonical_tryApply hc happ) (fun c hcm => ihCont c hcm)
    | tail _ hm => exact ihVars t hm
  | case4 n rest fen flag hty ihBody ihRest =>
    intro t ht
    rw [processSeq_variation E n rest fen flag hty] at ht
    rcases List.mem_append.mp ht with hm | hm
    · exact ihBody t hm
    · exact ihRest t hm
  | case5 n rest fen flag h1 h2 ih =>
    intro t ht
    have hty : n.type = AstType.MOVE := by
      cases htyp : n.type with
      | MOVE => rfl
      | VARIATION => exact absurd htyp h1
    have hsan : truthyStr n.san = none := by
      cases hs : truthyStr n.san with
      | none => rfl
      | some s => exact absurd hty (fun hh => h2 s hs hh)
    rw [processSeq_skip E n rest fen flag hty hsan] at ht
    exact ih t ht

-- ===========================================================================
-- Facts about the interactive insertion
-- ===========================================================================

theorem moveMatches_self (mv : MoveData) (fen : String) (ml : Bool)
    (cm : Option String) (ch : List MoveNode) :
    moveMatches (MoveNode.mk mv fen ml cm ch) mv = true := by
  simp [moveMatches, MoveNode.move]

theorem makeMoveUpdate_found (siblings : List MoveNode) (mv : MoveData)
    (newFen : String) (c : MoveNode)
    (h : siblings.find? (fun c => moveMatches c mv) = some c) :
    makeMoveUpdate siblings mv newFen = (siblings, c) := by
  unfold makeMoveUpdate
  rw [h]

theorem makeMoveUpdate_new (siblings : List MoveNode) (mv : MoveData)
    (newFen : String)
    (h : siblings.find? (fun c => moveMatches c mv) = none) :
    makeMoveUpdate siblings mv newFen =
      (siblings ++ [MoveNode.mk mv newFen siblings.isEmpty none []],
       MoveNode.mk mv newFen siblings.isEmpty none []) := by
  unfold makeMoveUpdate
  rw [h]

theorem makeMoveUpdate_idem (siblings : List MoveNode) (mv : MoveData)
    (newFen : String) :
    (makeMoveUpdate (makeMoveUpdate siblings mv newFen).1 mv newFen).1 =
      (makeMoveUpdate siblings mv newFen).1 := by
  cases hf : siblings.find? (fun c => moveMatches c mv) with
  | some c =>
    rw [makeMoveUpdate_found siblings mv newFen c hf]
    rw [makeMoveUpdate_found siblings mv newFen c hf]
  | none =>
    rw [makeMoveUpdate_new siblings mv newFen hf]
    have hf2 : (siblings ++ [MoveNode.mk mv newFen siblings.isEmpty none []]).find?
        (fun c => moveMatches c mv) =
        some (MoveNode.mk mv newFen siblings.isEmpty none []) := by
      rw [List.find?_append, hf]
      simp [List.find?, moveMatches_self]
    rw [makeMoveUpdate_found _ mv newFen _ hf2]

theorem mainCount_makeMoveUpdate (siblings : List MoveNode) (mv : MoveData)
    (newFen : String) (h : mainCount siblings ≤ 1) :
    mainCount (makeMoveUpdate siblings mv newFen).1 ≤ 1 := by
  cases hf : siblings.find? (fun c => moveMatches c mv) with
  | some c =>
    rw [makeMoveUpdate_found siblings mv newFen c hf]
    exact h
  | none =>
    rw [makeMoveUpdate_new siblings mv newFen hf]
    rw [mainCount_append, mainCount_cons, mainCount_nil]
    cases siblings with
    | nil =>
      simp [mainCount_nil, MoveNode.isMainLine, List.isEmpty]
    | cons a as =>
      simpa [MoveNode.isMainLine, List.isEmpty] using h

theorem treeUnique_makeMoveUpdate (siblings : List MoveNode) (mv : MoveData)
    (newFen : String) (h : ∀ t ∈ siblings, TreeUnique t) :
    ∀ t ∈ (makeMoveUpdate siblings mv newFen).1, TreeUnique t := by
  cases hf : siblings.find? (fun c => moveMatches c mv) with
  | some c =>
    rw [makeMoveUpdate_found siblings mv newFen c hf]
    exact h
  | none =>
    rw [makeMoveUpdate_new siblings mv newFen hf]
    intro t ht
    rcases List.mem_append.mp ht with hm | hm
    · exact h t hm
    · rcases List.mem_singleton.mp hm with rfl
      exact TreeUnique.mk (by simp [mainCount_nil]) (by intro c hc; cases hc)

theorem posInv_makeMoveUpdate (E : Engine) (fen : String)
    (siblings : List MoveNode) (mv : MoveData) (newFen : String)
    (h : ∀ c ∈ siblings, PosInv E fen c)
    (happ : E fen mv.san = some (mv, newFen)) :
    ∀ c ∈ (makeMoveUpdate siblings mv newFen).1, PosInv E fen c := by
  cases hf : siblings.find? (fun c => moveMatches c mv) with
  | some c =>
    rw [makeMoveUpdate_found siblings mv newFen c hf]
    exact h
  | none =>
    rw [makeMoveUpdate_new siblings mv newFen hf]
    intro c hc
    rcases List.mem_append.mp hc with hm | hm
    · exact h c hm
    · rcases List.mem_singleton.mp hm with rfl
      exact PosInv.mk happ (by intro x hx; cases hx)

-- ===========================================================================
-- Claim theorems
-- ===========================================================================

theorem jsTrim_of_all_whitespace {s : String} (h : ∀ c ∈ s.data, jsWhitespace c) :
    jsTrim s = "" := by
  unfold jsTrim jsTrimList
  have h1 : s.data.dropWhile jsWhitespace = [] :=
    List.dropWhile_eq_nil_iff.mpr (fun x hx => h x hx)
  rw [h1]
  rfl

/-- C9: importing a string that is empty or contains only whitespace
returns exactly the single error "PGN text is empty", an empty root
forest and empty metadata, for every rules engine and every
caller-supplied starting position; the embedding is a total function, so
no exception escapes. -/
theorem importFromPGN_blank_input (E : Engine) (pgn : String)
    (initialFen : Option String) (h : ∀ c ∈ pgn.data, jsWhitespace c) :
    importFromPGN E pgn initialFen =
      { rootNodes := [], metadata := [], errors := ["PGN text is empty"],
        warnings := [] } := by
  unfold importFromPGN
  rw [jsTrim_of_all_whitespace h]
  simp

/-- Witness for the blank-input claim at a concrete whitespace string. -/
theorem importFromPGN_blank_input_witness :
    importFromPGN (fun _ _ => none) " \t\n " none =
      { rootNodes := [], metadata := [], errors := ["PGN text is empty"],
        warnings := [] } :=
  importFromPGN_blank_input (fun _ _ => none) " \t\n " none (by decide)

theorem exists_append_three (a b c d : String) :
    ∃ rest, a ++ b ++ c ++ d = a ++ rest :=
  ⟨b ++ c ++ d, by simp [String.append_assoc]⟩

/-- C10: exporting an empty root forest yields the empty string (no
header tags, no move text, no result token), while exporting any
non-empty forest yields a string that begins with the Seven Tag Roster
header block. -/
theorem exportToPGN_empty_vs_roster :
    (∀ (initialFen : Option String) (metadata : PGNMetadata),
        exportToPGN [] initialFen metadata = "") ∧
    (∀ (rootNodes : List MoveNode) (initialFen : Option String)
        (metadata : PGNMetadata), rootNodes ≠ [] →
        ∃ rest, exportToPGN rootNodes initialFen metadata =
          sevenTagRoster metadata (exportResultValue metadata) ++ rest) := by
  constructor
  · intro fen md
    simp [exportToPGN]
  · intro roots fen md h
    unfold exportToPGN
    rw [if_neg (by simpa using h)]
    exact exists_append_three _ _ _ _

/-- Witness for the export claim at a concrete one-node forest. -/
theorem exportToPGN_empty_vs_roster_witness :
    ∃ rest, exportToPGN [MoveNode.mk ⟨"e4", "e2", "e4"⟩ "f1" true none []] none [] =
      sevenTagRoster [] (exportResultValue []) ++ rest :=
  exportToPGN_empty_vs_roster.2 [MoveNode.mk ⟨"e4", "e2", "e4"⟩ "f1" true none []]
    none [] (by simp)

/-- C7: playing a move at a position is idempotent.  When the sibling
list of the current position (the children of the current node, or the
root forest at the start position) already contains a node matching the
played move, the navigator moves to that node and the list is unchanged;
repeating the same insertion never grows the list; and otherwise a new
node is appended whose main-line flag is true exactly when the sibling
list was empty before the insertion. -/
theorem makeMove_insert_idempotent :
    (∀ (siblings : List MoveNode) (mv : MoveData) (newFen : String) (c : MoveNode),
        siblings.find? (fun c => moveMatches c mv) = some c →
        makeMoveUpdate siblings mv newFen = (siblings, c)) ∧
    (∀ (siblings : List MoveNode) (mv : MoveData) (newFen : String),
        (makeMoveUpdate (makeMoveUpdate siblings mv newFen).1 mv newFen).1 =
          (makeMoveUpdate siblings mv newFen).1) ∧
    (∀ (siblings : List MoveNode) (mv : MoveData) (newFen : String),
        siblings.find? (fun c => moveMatches c mv) = none →
        makeMoveUpdate siblings mv newFen =
          (siblings ++ [MoveNode.mk mv newFen siblings.isEmpty none []],
           MoveNode.mk mv newFen siblings.isEmpty none []) ∧
        ((MoveNode.mk mv newFen siblings.isEmpty none []).isMainLine = true ↔
          siblings = [])) := by
  refine ⟨makeMoveUpdate_found, makeMoveUpdate_idem, ?_⟩
  intro siblings mv newFen h
  refine ⟨makeMoveUpdate_new siblings mv newFen h, ?_⟩
  cases siblings <;> simp [MoveNode.isMainLine, List.isEmpty]

/-- Witness for the insertion claim: inserting into an empty sibling list
creates the single main-line child. -/
theorem makeMove_insert_idempotent_witness :
    makeMoveUpdate [] ⟨"e4", "e2", "e4"⟩ "f1" =
      ([MoveNode.mk ⟨"e4", "e2", "e4"⟩ "f1" true none []],
       MoveNode.mk ⟨"e4", "e2", "e4"⟩ "f1" true none []) := by
  have h := (makeMove_insert_idempotent.2.2 [] ⟨"e4", "e2", "e4"⟩ "f1" rfl).1
  simpa using h

-- ===========================================================================
-- Concrete engine table for counterexamples
-- ===========================================================================

/-- Concrete engine table: position p0 accepts SAN a1 giving p1, position
p1 accepts SAN c1 giving p2, everything else fails. -/
def ctrEngine : Engine := fun fen san =>
  if fen = "p0" && san = "a1" then some (⟨"a1", "a0", "a1"⟩, "p1")
  else if fen = "p1" && san = "c1" then some (⟨"c1", "c0", "c1"⟩, "p2")
  else none

/-- AST of a single three-move sequence whose middle move is illegal in
every position of the concrete engine table. -/
def ctrAst : List AstNode :=
  [AstNode.mk .MOVE (some "a1") [] none [],
   AstNode.mk .MOVE (some "b9") [] none [],
   AstNode.mk .MOVE (some "c1") [] none []]

/-- C5 counterexample: with the middle move of a three-move sequence
illegal, the builder records the error but still applies the third move
of the same sequence against the unchanged position, attaching it to the
running parent (here the first move), so the remainder of the sequence is
not abandoned; the tree is strictly larger than the claim allows. -/
theorem astToMoveTree_no_abandon_counterexample :
    astToMoveTree ctrEngine ctrAst "p0" =
      ([MoveNode.mk ⟨"a1", "a0", "a1"⟩ "p1" true none
          [MoveNode.mk ⟨"c1", "c0", "c1"⟩ "p2" true none []]],
       ["Invalid move: b9 at position"]) ∧
    (astToMoveTree ctrEngine ctrAst "p0").1 ≠
      [MoveNode.mk ⟨"a1", "a0", "a1"⟩ "p1" true none []] := by
  have hstrip : stripCheckSuffix "b9" = "b9" := by decide
  have h : astToMoveTree ctrEngine ctrAst "p0" =
      ([MoveNode.mk ⟨"a1", "a0", "a1"⟩ "p1" true none
          [MoveNode.mk ⟨"c1", "c0", "c1"⟩ "p2" true none []]],
       ["Invalid move: b9 at position"]) := by
    simp [astToMoveTree, processSeq, ctrAst, ctrEngine, tryApply, hstrip, truthyStr,
          AstNode.san, AstNode.type, AstNode.children, AstNode.comment]
  refine ⟨h, ?_⟩
  rw [h]
  simp

/-- C5 amended: when a SAN move of a sequence fails to apply (also after
the check-suffix retry), an error naming the SAN is recorded and that
move, with its attached variations, contributes nothing — but the builder
continues with the remaining nodes of the same sequence against the
unchanged position and parent (and sibling branches, other variations and
other roots are processed as before). -/
theorem processSeq_invalid_move_continues (E : Engine) (n : AstNode)
    (rest : List AstNode) (fen : String) (flag : Bool) (san : String)
    (hty : n.type = AstType.MOVE) (hsan : truthyStr n.san = some san)
    (happ : tryApply E fen san = none) :
    processSeq E (n :: rest) fen flag =
      ((processSeq E rest fen flag).1,
       ("Invalid move: " ++ san ++ " at position") ::
         (processSeq E rest fen flag).2) :=
  processSeq_move_fail E n rest fen flag san hty hsan happ

/-- Witness for the amended error-recovery claim at a concrete failing
move followed by a concrete legal one. -/
theorem processSeq_invalid_move_continues_witness :
    processSeq ctrEngine
        [AstNode.mk .MOVE (some "b9") [] none [],
         AstNode.mk .MOVE (some "c1") [] none []] "p1" true =
      ((processSeq ctrEngine [AstNode.mk .MOVE (some "c1") [] none []] "p1" true).1,
       ("Invalid move: " ++ "b9" ++ " at position") ::
         (processSeq ctrEngine [AstNode.mk .MOVE (some "c1") [] none []] "p1" true).2) :=
  processSeq_invalid_move_continues ctrEngine _ _ "p1" true "b9" rfl rfl (by decide)

-- ===========================================================================
-- Annotation glyphs are not persisted (C8)
-- ===========================================================================

/-- Clear the annotation glyphs of every node of an AST subtree, leaving
every other field alone. -/
def stripNagsNode : AstNode → AstNode
  | .mk t s _ cm ch => .mk t s [] cm (ch.attach.map (fun c => stripNagsNode c.1))
termination_by n => sizeOf n
decreasing_by
  have := List.sizeOf_lt_of_mem c.2
  simp
  omega

/-- Clear the annotation glyphs of every node of an AST forest. -/
def stripNags (ns : List AstNode) : List AstNode :=
  ns.map stripNagsNode

theorem stripNagsNode_mk (t : AstType) (sn : Option String) (ng : List String)
    (cm : Option String) (ch : List AstNode) :
    stripNagsNode (AstNode.mk t sn ng cm ch) =
      AstNode.mk t sn [] cm (ch.map stripNagsNode) := by
  rw [stripNagsNode]
  rw [List.attach_map_val]

theorem stripNagsNode_type (n : AstNode) : (stripNagsNode n).type = n.type := by
  cases n with
  | mk t sn ng cm ch => rw [stripNagsNode_mk]; rfl

theorem stripNagsNode_san (n : AstNode) : (stripNagsNode n).san = n.san := by
  cases n with
  | mk t sn ng cm ch => rw [stripNagsNode_mk]; rfl

theorem stripNagsNode_comment (n : AstNode) : (stripNagsNode n).comment = n.comment := by
  cases n with
  | mk t sn ng cm ch => rw [stripNagsNode_mk]; rfl

theorem stripNagsNode_children (n : AstNode) :
    (stripNagsNode n).children = stripNags n.children := by
  cases n with
  | mk t sn ng cm ch => rw [stripNagsNode_mk]; rfl

theorem stripNags_filter_variation (l : List AstNode) :
    (stripNags l).filter (fun v => v.type == AstType.VARIATION) =
      stripNags (l.filter (fun v => v.type == AstType.VARIATION)) := by
  induction l with
  | nil => rfl
  | cons x xs ih =>
    simp only [stripNags, List.map] at ih ⊢
    cases hx : (x.type == AstType.VARIATION) with
    | true =>
      have hx2 : ((stripNagsNode x).type == AstType.VARIATION) = true := by
        rw [stripNagsNode_type]; exact hx
      simp only [List.filter, hx, hx2, List.map, ih]
    | false =>
      have hx2 : ((stripNagsNode x).type == AstType.VARIATION) = false := by
        rw [stripNagsNode_type]; exact hx
      simp only [List.filter, hx, hx2, ih]

/-- The move-tree builder never reads the glyph list: clearing every nags
field of the AST leaves its output unchanged. -/
theorem processSeq_stripNags (E : Engine) (ns : List AstNode) (fen : String)
    (flag : Bool) :
    processSeq E (stripNags ns) fen flag = processSeq E ns fen flag := by
  induction ns, fen, flag using processSeq.induct E with
  | case1 fen flag => rfl
  | case2 n rest fen flag san hty hsan happ ih =>
    have hty2 : (stripNagsNode n).type = AstType.MOVE := by
      rw [stripNagsNode_type]; exact hty
    have hsan2 : truthyStr (stripNagsNode n).san = some san := by
      rw [stripNagsNode_san]; exact hsan
    show processSeq E (stripNagsNode n :: stripNags rest) fen flag = _
    rw [processSeq_move_fail E _ _ fen flag san hty2 hsan2 happ,
        processSeq_move_fail E n rest fen flag san hty hsan happ, ih]
  | case3 n rest fen flag san hty hsan mv newFen happ ihCont ihVars =>
    have hty2 : (stripNagsNode n).type = AstType.MOVE := by
      rw [stripNagsNode_type]; exact hty
    have hsan2 : truthyStr (stripNagsNode n).san = some san := by
      rw [stripNagsNode_san]; exact hsan
    show processSeq E (stripNagsNode n :: stripNags rest) fen flag = _
    rw [processSeq_move_ok E _ _ fen flag san mv newFen hty2 hsan2 happ,
        processSeq_move_ok E n rest fen flag san mv newFen hty hsan happ,
        stripNagsNode_comment, stripNagsNode_children, stripNags_filter_variation,
        ihCont, ihVars]
  | case4 n rest fen flag hty ihBody ihRest =>
    have hty2 : (stripNagsNode n).type = AstType.VARIATION := by
      rw [stripNagsNode_type]; exact hty
    show processSeq E (stripNagsNode n :: stripNags rest) fen flag = _
    rw [processSeq_variation E _ _ fen flag hty2,
        processSeq_variation E n rest fen flag hty,
        stripNagsNode_children, ihBody, ihRest]
  | case5 n rest fen flag h1 h2 ih =>
    have hty : n.type = AstType.MOVE := by
      cases htyp : n.type with
      | MOVE => rfl
      | VARIATION => exact absurd htyp h1
    have hsan : truthyStr n.san = none := by
      cases hs : truthyStr n.san with
      | none => rfl
      | some v => exact absurd hty (fun hh => h2 v hs hh)
    have hty2 : (stripNagsNode n).type = AstType.MOVE := by
      rw [stripNagsNode_type]; exact hty
    have hsan2 : truthyStr (stripNagsNode n).san = none := by
      rw [stripNagsNode_san]; exact hsan
    show processSeq E (stripNagsNode n :: stripNags rest) fen flag = _
    rw [processSeq_skip E _ _ fen flag hty2 hsan2,
        processSeq_skip E n rest fen flag hty hsan, ih]

/-- C8 counterexample: two ASTs differing only in the glyph list of a
successfully applied MOVE node build identical trees, so the ordered
glyph list is not carried onto the persisted node (which has no field for
it), even though the comment of the very same node is carried. -/
theorem astToMoveTree_nags_counterexample :
    astToMoveTree ctrEngine
        [AstNode.mk .MOVE (some "a1") ["$1"] (some "good") []] "p0" =
      astToMoveTree ctrEngine
        [AstNode.mk .MOVE (some "a1") [] (some "good") []] "p0" ∧
    astToMoveTree ctrEngine
        [AstNode.mk .MOVE (some "a1") ["$1"] (some "good") []] "p0" =
      ([MoveNode.mk ⟨"a1", "a0", "a1"⟩ "p1" true (some "good") []], []) := by
  have h1 : astToMoveTree ctrEngine
      [AstNode.mk .MOVE (some "a1") ["$1"] (some "good") []] "p0" =
      ([MoveNode.mk ⟨"a1", "a0", "a1"⟩ "p1" true (some "good") []], []) := by
    simp [astToMoveTree, processSeq, ctrEngine, tryApply, truthyStr,
          AstNode.san, AstNode.type, AstNode.children, AstNode.comment]
  have h2 : astToMoveTree ctrEngine
      [AstNode.mk .MOVE (some "a1") [] (some "good") []] "p0" =
      ([MoveNode.mk ⟨"a1", "a0", "a1"⟩ "p1" true (some "good") []], []) := by
    simp [astToMoveTree, processSeq, ctrEngine, tryApply, truthyStr,
          AstNode.san, AstNode.type, AstNode.children, AstNode.comment]
  exact ⟨h1.trans h2.symm, h1⟩

/-- C8 amended: for every successfully applied MOVE AST node the built
MoveNode carries over the truthy comment, but the glyph list is not
carried over: the persisted MoveNode has no glyph field and the builder
never reads the glyph list, so clearing every glyph list of the AST
leaves the built tree unchanged. -/
theorem processSeq_comment_kept_nags_dropped :
    (∀ (E : Engine) (n : AstNode) (rest : List AstNode) (fen : String)
        (flag : Bool) (san : String) (mv : MoveData) (newFen : String),
        n.type = AstType.MOVE → truthyStr n.san = some san →
        tryApply E fen san = some (mv, newFen) →
        ∃ siblings, (processSeq E (n :: rest) fen flag).1 =
          MoveNode.mk mv newFen flag (truthyStr n.comment)
            (processSeq E rest newFen flag).1 :: siblings) ∧
    (∀ (E : Engine) (ns : List AstNode) (fen : String) (flag : Bool),
        processSeq E (stripNags ns) fen flag = processSeq E ns fen flag) := by
  constructor
  · intro E n rest fen flag san mv newFen hty hsan happ
    exact ⟨_, by rw [processSeq_move_ok E n rest fen flag san mv newFen hty hsan happ]⟩
  · exact processSeq_stripNags

/-- Witness for the comment-kept claim at a concrete annotated move. -/
theorem processSeq_comment_kept_nags_dropped_witness :
    ∃ siblings, (processSeq ctrEngine
        [AstNode.mk .MOVE (some "a1") ["$3"] (some "note") []] "p0" true).1 =
      MoveNode.mk ⟨"a1", "a0", "a1"⟩ "p1" true (some "note")
        (processSeq ctrEngine [] "p1" true).1 :: siblings := by
  have h := processSeq_comment_kept_nags_dropped.1 ctrEngine
    (AstNode.mk .MOVE (some "a1") ["$3"] (some "note") []) [] "p0" true "a1"
    ⟨"a1", "a0", "a1"⟩ "p1" rfl rfl (by decide)
  simpa [truthyStr, AstNode.comment] using h

/-- One-step unfolding of the import pipeline on non-blank input, with
the stage results abstracted: the imported tree is the move-tree build of
the parsed AST against the computed starting position, the metadata
merges the result token into the header tags, and the no-valid-moves
error is appended exactly when the forest is empty while a MOVE token
exists. -/
theorem importFromPGN_run (E : Engine) (pgn : String) (initialFen : Option String)
    (tags : PGNMetadata) (tokens : List Token) (ast : List AstNode)
    (result : Option String)
    (h0 : ¬ (jsTrim pgn = ""))
    (h1 : tokenizePgn pgn = (tags, tokens))
    (h2 : buildAst tokens = (ast, result)) :
    importFromPGN E pgn initialFen =
      { rootNodes := (astToMoveTree E ast (importStartFen tags initialFen)).1,
        metadata := mergeResultTag tags result,
        errors :=
          if (astToMoveTree E ast (importStartFen tags initialFen)).1.isEmpty
              && tokens.any (fun t => t.type == TokenType.MOVE) then
            (astToMoveTree E ast (importStartFen tags initialFen)).2
              ++ ["No valid moves found in PGN. Please check the format."]
          else (astToMoveTree E ast (importStartFen tags initialFen)).2,
        warnings := [] } := by
  unfold importFromPGN
  rw [if_neg h0, h1]
  simp only []
  have h2a : (buildAst tokens).1 = ast := by rw [h2]
  have h2b : (buildAst tokens).2 = result := by rw [h2]
  rw [h2a, h2b]

-- ===========================================================================
-- C6: comment and glyph attachment, with Scenario B
-- ===========================================================================

/-- C6 counterexample: a comment token before any move is held pending,
but a second pending comment overwrites the first, so the first is never
attached to any MOVE node: from the token stream COMMENT a, COMMENT b,
MOVE e4 the only move carries comment b, and a survives nowhere. -/
theorem buildAst_pending_comment_overwritten :
    buildAst [⟨.COMMENT, "a"⟩, ⟨.COMMENT, "b"⟩, ⟨.MOVE, "e4"⟩] =
      ([AstNode.mk .MOVE (some "e4") [] (some "b") []], none) ∧
    (buildAst [⟨.COMMENT, "a"⟩, ⟨.COMMENT, "b"⟩, ⟨.MOVE, "e4"⟩]).1.map
        AstNode.comment = [some "b"] := by
  constructor
  · rfl
  · rfl

/-- C6 amended: a COMMENT or NAG token attaches to the immediately
preceding MOVE node when the current sequence ends in one; otherwise it
is held pending — a later pending comment overwrites an earlier one — and
the next MOVE node created consumes the pending state: a nonempty pending
comment becomes its comment (an empty one is discarded) and the pending
glyphs become its glyph list.  In particular, importing the movetext of
Scenario B yields a root e4 whose comment is exactly "best by test". -/
theorem buildAst_comment_attachment :
    (∀ (v : String) (ts : List Token) (current : List AstNode)
        (stack : List (List AstNode)) (st : BuildState),
        endsWithMove current = true →
        buildAstLoop (⟨.COMMENT, v⟩ :: ts) current stack st =
          buildAstLoop ts (updateLast (AstNode.setComment v) current) stack st) ∧
    (∀ (v : String) (ts : List Token) (current : List AstNode)
        (stack : List (List AstNode)) (st : BuildState),
        endsWithMove current = false →
        buildAstLoop (⟨.COMMENT, v⟩ :: ts) current stack st =
          buildAstLoop ts current stack { st with pendingComment := some v }) ∧
    (∀ (v : String) (ts : List Token) (current : List AstNode)
        (stack : List (List AstNode)) (st : BuildState),
        endsWithMove current = true →
        buildAstLoop (⟨.NAG, v⟩ :: ts) current stack st =
          buildAstLoop ts (updateLast (AstNode.addNag v) current) stack st) ∧
    (∀ (v : String) (ts : List Token) (current : List AstNode)
        (stack : List (List AstNode)) (st : BuildState),
        endsWithMove current = false →
        buildAstLoop (⟨.NAG, v⟩ :: ts) current stack st =
          buildAstLoop ts current stack
            { st with pendingNags := st.pendingNags ++ [v] }) ∧
    (∀ (v : String) (ts : List Token) (current : List AstNode)
        (stack : List (List AstNode)) (st : BuildState) (cm : String),
        st.pendingComment = some cm → cm ≠ "" →
        buildAstLoop (⟨.MOVE, v⟩ :: ts) current stack st =
          buildAstLoop ts
            (current ++ [AstNode.mk .MOVE (some v) st.pendingNags (some cm) []])
            stack { st with pendingComment := none, pendingNags := [] }) ∧
    (∀ (E : Engine) (s0 : String) (m1 : MoveData) (s1 : String)
        (m2 : MoveData) (s2 : String), s0 ≠ "" →
        E s0 "e4" = some (m1, s1) → E s1 "e5" = some (m2, s2) →
        importFromPGN E "1. e4 \x7bbest by test\x7d e5" (some s0) =
          { rootNodes := [MoveNode.mk m1 s1 true (some "best by test")
              [MoveNode.mk m2 s2 true none []]],
            metadata := [], errors := [], warnings := [] }) := by
  refine ⟨?_, ?_, ?_, ?_, ?_, ?_⟩
  · intro v ts current stack st h
    simp [buildAstLoop, h]
  · intro v ts current stack st h
    simp [buildAstLoop, h]
  · intro v ts current stack st h
    simp [buildAstLoop, h]
  · intro v ts current stack st h
    simp [buildAstLoop, h]
  · intro v ts current stack st cm hcm hne
    simp [buildAstLoop, hcm, hne]
  · intro E s0 m1 s1 m2 s2 hs0 h1 h2
    have t1 : tryApply E s0 "e4" = some (m1, s1) := by
      unfold tryApply
      rw [h1]
    have t2 : tryApply E s1 "e5" = some (m2, s2) := by
      unfold tryApply
      rw [h2]
    rw [importFromPGN_run E "1. e4 \x7bbest by test\x7d e5" (some s0) []
          [⟨.MOVE_NUMBER, "1"⟩, ⟨.MOVE, "e4"⟩, ⟨.COMMENT, "best by test"⟩,
           ⟨.MOVE, "e5"⟩]
          [AstNode.mk .MOVE (some "e4") [] (some "best by test") [],
           AstNode.mk .MOVE (some "e5") [] none []]
          none (by decide) (by decide) (by rfl)]
    have hsf : importStartFen [] (some s0) = s0 := by
      have hh : jsTrim (lookupTagD [] "FEN" "") = "" := by decide
      unfold importStartFen
      rw [hh]
      simp [hs0]
    rw [hsf]
    unfold astToMoveTree
    rw [processSeq_move_ok E (AstNode.mk .MOVE (some "e4") [] (some "best by test") [])
          [AstNode.mk .MOVE (some "e5") [] none []] s0 true "e4" m1 s1 rfl rfl t1,
        processSeq_move_ok E (AstNode.mk .MOVE (some "e5") [] none []) [] s1 true "e5"
          m2 s2 rfl rfl t2]
    simp [processSeq_nil, truthyStr, AstNode.comment, AstNode.children,
          mergeResultTag, setTag]

/-- Table engine realizing the positions of the two import scenarios. -/
def abEngine : Engine := fun fen san =>
  if fen = "q0" && san = "e4" then some (⟨"e4", "e2", "e4"⟩, "q1")
  else if fen = "q1" && san = "e5" then some (⟨"e5", "e7", "e5"⟩, "q2")
  else if fen = "q1" && san = "c5" then some (⟨"c5", "c7", "c5"⟩, "q3")
  else if fen = "q3" && san = "Nf3" then some (⟨"Nf3", "g1", "f3"⟩, "q4")
  else if fen = "q2" && san = "Nf3" then some (⟨"Nf3", "g1", "f3"⟩, "q5")
  else if fen = "q5" && san = "Nc6" then some (⟨"Nc6", "b8", "c6"⟩, "q6")
  else none

/-- Witness for the attachment claim: Scenario B run against the concrete
table engine. -/
theorem buildAst_comment_attachment_witness :
    importFromPGN abEngine "1. e4 \x7bbest by test\x7d e5" (some "q0") =
      { rootNodes := [MoveNode.mk ⟨"e4", "e2", "e4"⟩ "q1" true (some "best by test")
          [MoveNode.mk ⟨"e5", "e7", "e5"⟩ "q2" true none []]],
        metadata := [], errors := [], warnings := [] } :=
  buildAst_comment_attachment.2.2.2.2.2 abEngine "q0" ⟨"e4", "e2", "e4"⟩ "q1"
    ⟨"e5", "e7", "e5"⟩ "q2" (by decide) (by decide) (by decide)

-- ===========================================================================
-- C1: variation anchoring, with Scenario A
-- ===========================================================================

/-- C1: the variations attached to a successfully applied MOVE AST node
are built as sibling branches of that move: their trees follow the new
node in the very list handed to the move's parent (so their first moves
become children of that parent, or further roots when the move was a
root), they are replayed from the position before the move with a false
main-line flag, and every node produced while processing with a false
flag — in particular every node inside a variation — has a false
main-line flag.  In particular Scenario A builds the claimed shape. -/
theorem astToMoveTree_variation_sibling :
    (∀ (E : Engine) (n : AstNode) (rest : List AstNode) (fen : String)
        (flag : Bool) (san : String) (mv : MoveData) (newFen : String),
        n.type = AstType.MOVE → truthyStr n.san = some san →
        tryApply E fen san = some (mv, newFen) →
        (processSeq E (n :: rest) fen flag).1 =
          MoveNode.mk mv newFen flag (truthyStr n.comment)
              (processSeq E rest newFen flag).1
            :: (processSeq E (n.children.filter (fun v => v.type == AstType.VARIATION))
                  fen false).1) ∧
    (∀ (E : Engine) (ns : List AstNode) (fen : String),
        ∀ t ∈ (processSeq E ns fen false).1, AllFalse t) ∧
    (∀ (E : Engine) (s0 : String) (m1 : MoveData) (s1 : String)
        (m2 : MoveData) (s2 : String) (m3 : MoveData) (s3 : String)
        (m4 : MoveData) (s4 : String) (m5 : MoveData) (s5 : String)
        (m6 : MoveData) (s6 : String), s0 ≠ "" →
        E s0 "e4" = some (m1, s1) → E s1 "e5" = some (m2, s2) →
        E s1 "c5" = some (m3, s3) → E s3 "Nf3" = some (m4, s4) →
        E s2 "Nf3" = some (m5, s5) → E s5 "Nc6" = some (m6, s6) →
        importFromPGN E "1. e4 e5 (1... c5 2. Nf3) 2. Nf3 Nc6 *" (some s0) =
          { rootNodes := [MoveNode.mk m1 s1 true none
              [MoveNode.mk m2 s2 true none
                [MoveNode.mk m5 s5 true none [MoveNode.mk m6 s6 true none []]],
               MoveNode.mk m3 s3 false none [MoveNode.mk m4 s4 false none []]]],
            metadata := [("Result", "*")], errors := [], warnings := [] }) := by
  refine ⟨?_, ?_, ?_⟩
  · intro E n rest fen flag san mv newFen hty hsan happ
    rw [processSeq_move_ok E n rest fen flag san mv newFen hty hsan happ]
  · intro E ns fen
    exact processSeq_allFalse E ns fen false rfl
  · intro E s0 m1 s1 m2 s2 m3 s3 m4 s4 m5 s5 m6 s6 hs0 h1 h2 h3 h4 h5 h6
    have t1 : tryApply E s0 "e4" = some (m1, s1) := by
      unfold tryApply
      rw [h1]
    have t2 : tryApply E s1 "e5" = some (m2, s2) := by
      unfold tryApply
      rw [h2]
    have t3 : tryApply E s1 "c5" = some (m3, s3) := by
      unfold tryApply
      rw [h3]
    have t4 : tryApply E s3 "Nf3" = some (m4, s4) := by
      unfold tryApply
      rw [h4]
    have t5 : tryApply E s2 "Nf3" = some (m5, s5) := by
      unfold tryApply
      rw [h5]
    have t6 : tryApply E s5 "Nc6" = some (m6, s6) := by
      unfold tryApply
      rw [h6]
    rw [importFromPGN_run E "1. e4 e5 (1... c5 2. Nf3) 2. Nf3 Nc6 *" (some s0) []
          [⟨.MOVE_NUMBER, "1"⟩, ⟨.MOVE, "e4"⟩, ⟨.MOVE, "e5"⟩,
           ⟨.VARIATION_START, "("⟩, ⟨.MOVE_NUMBER, "1"⟩, ⟨.MOVE, "c5"⟩,
           ⟨.MOVE_NUMBER, "2"⟩, ⟨.MOVE, "Nf3"⟩, ⟨.VARIATION_END, ")"⟩,
           ⟨.MOVE_NUMBER, "2"⟩, ⟨.MOVE, "Nf3"⟩, ⟨.MOVE, "Nc6"⟩, ⟨.RESULT, "*"⟩]
          [AstNode.mk .MOVE (some "e4") [] none [],
           AstNode.mk .MOVE (some "e5") [] none
             [AstNode.mk .VARIATION none [] none
               [AstNode.mk .MOVE (some "c5") [] none [],
                AstNode.mk .MOVE (some "Nf3") [] none []]],
           AstNode.mk .MOVE (some "Nf3") [] none [],
           AstNode.mk .MOVE (some "Nc6") [] none []]
          (some "*") (by decide) (by decide) (by rfl)]
    have hsf : importStartFen [] (some s0) = s0 := by
      have hh : jsTrim (lookupTagD [] "FEN" "") = "" := by decide
      unfold importStartFen
      rw [hh]
      simp [hs0]
    rw [hsf]
    unfold astToMoveTree
    simp [processSeq, t1, t2, t3, t4, t5, t6, truthyStr, setTag, mergeResultTag,
          AstNode.san, AstNode.type, AstNode.children, AstNode.comment]

/-- Witness for the variation-anchoring claim: Scenario A run against the
concrete table engine. -/
theorem astToMoveTree_variation_sibling_witness :
    importFromPGN abEngine "1. e4 e5 (1... c5 2. Nf3) 2. Nf3 Nc6 *" (some "q0") =
      { rootNodes := [MoveNode.mk ⟨"e4", "e2", "e4"⟩ "q1" true none
          [MoveNode.mk ⟨"e5", "e7", "e5"⟩ "q2" true none
            [MoveNode.mk ⟨"Nf3", "g1", "f3"⟩ "q5" true none
              [MoveNode.mk ⟨"Nc6", "b8", "c6"⟩ "q6" true none []]],
           MoveNode.mk ⟨"c5", "c7", "c5"⟩ "q3" false none
             [MoveNode.mk ⟨"Nf3", "g1", "f3"⟩ "q4" false none []]]],
        metadata := [("Result", "*")], errors := [], warnings := [] } :=
  astToMoveTree_variation_sibling.2.2 abEngine "q0" ⟨"e4", "e2", "e4"⟩ "q1"
    ⟨"e5", "e7", "e5"⟩ "q2" ⟨"c5", "c7", "c5"⟩ "q3" ⟨"Nf3", "g1", "f3"⟩ "q4"
    ⟨"Nf3", "g1", "f3"⟩ "q5" ⟨"Nc6", "b8", "c6"⟩ "q6" (by decide) (by decide)
    (by decide) (by decide) (by decide) (by decide) (by decide)

-- ===========================================================================
-- C2: position invariant
-- ===========================================================================

/-- C2: in every tree built by the import, each node's stored position is
what the rules engine returns when the node's canonical SAN is applied to
the parent's stored position (to the starting position for a root), for
every canonical engine; and the invariant is preserved when the
interactive insertion extends a sibling list whose members satisfy it,
given the engine result of the played move at that position. -/
theorem position_invariant :
    (∀ (E : Engine), Canonical E → ∀ (ast : List AstNode) (startFen : String),
        ∀ t ∈ (astToMoveTree E ast startFen).1, PosInv E startFen t) ∧
    (∀ (E : Engine) (fen : String) (siblings : List MoveNode) (mv : MoveData)
        (newFen : String),
        (∀ c ∈ siblings, PosInv E fen c) →
        E fen mv.san = some (mv, newFen) →
        ∀ c ∈ (makeMoveUpdate siblings mv newFen).1, PosInv E fen c) :=
  ⟨fun E hc ast startFen => processSeq_posInv E hc ast startFen true,
   posInv_makeMoveUpdate⟩

/-- The concrete table engine is canonical: every accepted SAN is already
the canonical SAN of the returned move. -/
theorem abEngine_canonical : Canonical abEngine := by
  intro fen san mv fen2 h
  unfold abEngine at h ⊢
  split_ifs at h with h1 h2 h3 h4 h5 h6
  all_goals first
    | (cases h
       simp only [Bool.and_eq_true, decide_eq_true_eq] at *
       simp_all [MoveData.san])
    | cases h

/-- Witness for the position invariant: the root built from one accepted
move of the concrete table engine satisfies it. -/
theorem position_invariant_witness :
    PosInv abEngine "q0" (MoveNode.mk ⟨"e4", "e2", "e4"⟩ "q1" true none []) := by
  have hrun : (astToMoveTree abEngine
      [AstNode.mk .MOVE (some "e4") [] none []] "q0").1 =
      [MoveNode.mk ⟨"e4", "e2", "e4"⟩ "q1" true none []] := by
    simp [astToMoveTree, processSeq, abEngine, tryApply, truthyStr,
          AstNode.san, AstNode.type, AstNode.children, AstNode.comment]
  exact position_invariant.1 abEngine abEngine_canonical
    [AstNode.mk .MOVE (some "e4") [] none []] "q0"
    (MoveNode.mk ⟨"e4", "e2", "e4"⟩ "q1" true none [])
    (by rw [hrun]; exact List.mem_singleton.mpr rfl)

-- ===========================================================================
-- C3: main-line uniqueness
-- ===========================================================================

/-- C3: in every tree built by the import, every sibling set — the root
forest, and recursively every children list — has at most one main-line
member; and the interactive insertion preserves both bounds on the
sibling list it extends (an empty sibling set satisfies the bound
trivially, by the nil case of mainCount). -/
theorem mainline_uniqueness :
    (∀ (E : Engine) (ast : List AstNode) (startFen : String),
        mainCount (astToMoveTree E ast startFen).1 ≤ 1 ∧
        ∀ t ∈ (astToMoveTree E ast startFen).1, TreeUnique t) ∧
    (∀ (siblings : List MoveNode) (mv : MoveData) (newFen : String),
        mainCount siblings ≤ 1 → (∀ t ∈ siblings, TreeUnique t) →
        mainCount (makeMoveUpdate siblings mv newFen).1 ≤ 1 ∧
        ∀ t ∈ (makeMoveUpdate siblings mv newFen).1, TreeUnique t) := by
  constructor
  · intro E ast startFen
    refine ⟨?_, processSeq_treeUnique E ast startFen true⟩
    have h := processSeq_mainCount E ast startFen true
    simpa using h
  · intro siblings mv newFen h1 h2
    exact ⟨mainCount_makeMoveUpdate siblings mv newFen h1,
           treeUnique_makeMoveUpdate siblings mv newFen h2⟩

/-- Witness for main-line uniqueness after a concrete insertion into an
empty sibling list. -/
theorem mainline_uniqueness_witness :
    mainCount (makeMoveUpdate [] ⟨"e4", "e2", "e4"⟩ "f1").1 ≤ 1 :=
  (mainline_uniqueness.2 [] ⟨"e4", "e2", "e4"⟩ "f1" (by decide)
    (by intro t ht; cases ht)).1

-- ===========================================================================
-- C4: move numbers derived from the parent position
-- ===========================================================================

/-- C4: the printed move prefix of every exported node is computed solely
from the position stored on the node's parent: when the side-to-move
field of that position is white the prefix is the fullmove counter with
one dot, when it is black the counter with three dots appears only when
forced, and the counter is exactly the number in the fullmove field of
that position whenever the field holds a positive numeral.  The recursive
export functions pass each node's own stored position down when emitting
its children — the unfolding equations below exhibit the parent position
as the only position the emission of a child consults, with no running
counter among the arguments — and the top level formats every root
against the initial position. -/
theorem export_numbering_from_parent :
    (∀ (startFen pfen : String) (n : MoveNode) (force : Bool) (k : Int),
        ((jsSplitSpace pfen).getD 1 "" = "w" ∨ (jsSplitSpace pfen).getD 1 "" = "b") →
        jsParseInt ((jsSplitSpace pfen).getD 5 "") = some k → 1 ≤ k →
        formatMove startFen (some pfen) n force =
          (if (jsSplitSpace pfen).getD 1 "" = "w" then toString k ++ ". "
           else if force then toString k ++ "... " else "") ++ n.move.san) ∧
    (∀ (startFen : String) (n : MoveNode) (force : Bool), n.children ≠ [] →
        exportFrom startFen n force =
          formatMove startFen (some n.fen)
              (n.children.getD (mainIdx n.children) default)
              (force || !(n.children.eraseIdx (mainIdx n.children)).isEmpty)
            :: (commentParts (n.children.getD (mainIdx n.children) default)
                ++ exportVars startFen (some n.fen)
                    (n.children.eraseIdx (mainIdx n.children))
                ++ exportFrom startFen (n.children.getD (mainIdx n.children) default)
                    (!(n.children.eraseIdx (mainIdx n.children)).isEmpty))) ∧
    (∀ (startFen : String) (pfen : Option String) (n : MoveNode) (force : Bool),
        n.children ≠ [] →
        exportLine startFen pfen n force =
          (formatMove startFen pfen n force :: commentParts n)
            ++ exportVars startFen (some n.fen)
                (n.children.eraseIdx (mainIdx n.children))
            ++ exportLine startFen (some n.fen)
                (n.children.getD (mainIdx n.children) default)
                (!(n.children.eraseIdx (mainIdx n.children)).isEmpty)) ∧
    (∀ (rootNodes : List MoveNode) (initialFen : Option String)
        (metadata : PGNMetadata), rootNodes ≠ [] →
        exportToPGN rootNodes initialFen metadata =
          sevenTagRoster metadata (exportResultValue metadata)
            ++ extraTagLines metadata ++ "\n"
            ++ normalizeMoveText (String.intercalate " "
              ((formatMove (exportStartFen initialFen) none
                    (rootNodes.getD (mainIdx rootNodes) default) true
                  :: commentParts (rootNodes.getD (mainIdx rootNodes) default))
                ++ exportVars (exportStartFen initialFen) none
                    (rootNodes.eraseIdx (mainIdx rootNodes))
                ++ exportFrom (exportStartFen initialFen)
                    (rootNodes.getD (mainIdx rootNodes) default) false
                ++ [exportResultValue metadata]))) := by
  refine ⟨?_, ?_, ?_, ?_⟩
  · intro startFen pfen n force k hside hnum hpos
    have hk : ¬ (k = 0) := by omega
    have hne : pfen ≠ "" := by
      intro he
      subst he
      revert hside
      decide
    rcases hside with hw | hb
    · simp only [List.getD_eq_getElem?_getD] at hw hnum
      simp [formatMove, getMoveInfo, hne, hw, hnum, hk]
    · simp only [List.getD_eq_getElem?_getD] at hb hnum
      simp [formatMove, getMoveInfo, hne, hb, hnum, hk]
  · intro startFen n force h
    cases n with
    | mk mv fen ml cm ch =>
      cases ch with
      | nil => simp [MoveNode.children] at h
      | cons a as =>
        conv_lhs => rw [exportFrom]
        simp [MoveNode.children, MoveNode.fen]
  · intro startFen pfen n force h
    cases n with
    | mk mv fen ml cm ch =>
      cases ch with
      | nil => simp [MoveNode.children] at h
      | cons a as =>
        conv_lhs => rw [exportLine]
        simp [MoveNode.children, MoveNode.fen]
  · intro rootNodes initialFen metadata h
    unfold exportToPGN
    rw [if_neg (by simpa using h)]

/-- Witness for the numbering claim at a concrete black-to-move parent
position with fullmove counter three. -/
theorem export_numbering_from_parent_witness :
    formatMove defaultStartFen (some "board b KQkq - 0 3")
        (MoveNode.mk ⟨"Nc6", "b8", "c6"⟩ "f2" true none []) true =
      (if (jsSplitSpace "board b KQkq - 0 3").getD 1 "" = "w"
       then toString (3 : Int) ++ ". "
       else if true then toString (3 : Int) ++ "... " else "")
        ++ (MoveNode.mk ⟨"Nc6", "b8", "c6"⟩ "f2" true none []).move.san :=
  export_numbering_from_parent.1 defaultStartFen "board b KQkq - 0 3"
    (MoveNode.mk ⟨"Nc6", "b8", "c6"⟩ "f2" true none []) true 3
    (by decide) (by decide) (by decide)

end Chess
